import Mathlib

set_option maxHeartbeats 1000000

/-! Shallow embedding of the libpdb crate: src/validator.rs, src/structs/atom.rs,
src/structs/pdb.rs, src/item.rs, src/read.rs, src/save.rs.

Modelling conventions:
* Rust `String`/`&str` values are modelled as `Str := List Char`.  Byte-based
  operations of the source (`str::len`, byte-range slicing such as `&line[..6]`
  and `line.get(11..)`) are modelled through the UTF-8 size of each character
  (`charUtf8Size`, `utf8Len`, `byteTakeOpt`, ...), so that the byte/character
  distinction of the source is preserved.
* Rust `f64` is modelled by `F64`: a finite decimal value `man / 10 ^ exp`
  or one of the special values `inf`, `neginf`, `nan`.  The rounding of decimal
  literals to binary floating point (and overflow of huge literals to infinity)
  is abstracted away: decimal values are taken exactly.  This matches every
  value the claims mention.
* Fallible Rust code returns `RRes`, which distinguishes ordinary `Result`
  errors (`anyhow` string errors and typed `PDBError` values) from panics
  (`panic!` and out-of-bounds slicing/indexing), because several claims are
  about whether the code aborts.  Mutating methods on `&mut self` are modelled
  by state passing: they return the outcome paired with the new state, and on
  the error path they return the receiver unchanged, exactly as the source
  leaves `self` untouched on its error path.
* Error message strings are reproduced from the source `format!` calls, with
  numbers rendered in decimal; debug renderings (`{:?}`) of values inside
  messages are approximated by the plain rendering.  No claim depends on
  message text.
* The file stream is abstracted: `save_pdb_raw` emits a list of lines (the
  source writes each line followed by `"\n"`), and `read_pdb_raw` consumes a
  list of lines (the source iterates `BufReader::lines`, which strips the
  newlines); I/O failures of the underlying stream are out of scope. -/

abbrev Str := List Char

def s2c (s : String) : Str := s.data

/-- UTF-8 encoded size in bytes of one character, as used by Rust `str::len`. -/
def charUtf8Size (c : Char) : Nat :=
  if c.toNat < 128 then 1 else if c.toNat < 2048 then 2 else if c.toNat < 65536 then 3 else 4

/-- Rust `str::len`: length in UTF-8 bytes. -/
def utf8Len (l : Str) : Nat := (l.map charUtf8Size).sum

/-- Rust `char::is_whitespace`: the Unicode White_Space property. -/
def rustIsWhitespace (c : Char) : Bool :=
  let n := c.toNat
  decide ((9 ≤ n ∧ n ≤ 13) ∨ n = 32 ∨ n = 133 ∨ n = 160 ∨ n = 5760 ∨
    (8192 ≤ n ∧ n ≤ 8202) ∨ n = 8232 ∨ n = 8233 ∨ n = 8239 ∨ n = 8287 ∨ n = 12288)

/-- Rust `str::trim_start`. -/
def ltrimChars (l : Str) : Str := l.dropWhile rustIsWhitespace

/-- Rust `str::trim_end`. -/
def trimEndChars (l : Str) : Str := (l.reverse.dropWhile rustIsWhitespace).reverse

/-- Rust `str::trim`. -/
def trimChars (l : Str) : Str := trimEndChars (ltrimChars l)

/-- Rust `char::to_ascii_uppercase`. -/
def asciiUpperChar (c : Char) : Char :=
  if 'a' ≤ c ∧ c ≤ 'z' then Char.ofNat (c.toNat - 32) else c

/-- Rust `str::to_ascii_uppercase`. -/
def asciiUpper (l : Str) : Str := l.map asciiUpperChar

/-- Little-endian decimal digits with explicit fuel (structural recursion so the
kernel can evaluate it). -/
def digitsFuel : Nat → Nat → List Nat
  | 0, _ => []
  | fuel + 1, n => if n = 0 then [] else n % 10 :: digitsFuel fuel (n / 10)

def natDigitsLE (n : Nat) : List Nat := digitsFuel n n

def digitChar (d : Nat) : Char := Char.ofNat (48 + d)

/-- Rust `Display` of an unsigned integer. -/
def natToChars (n : Nat) : Str :=
  if n = 0 then ['0'] else ((natDigitsLE n).reverse).map digitChar

/-- Rust `Display` of a signed integer (the `{}` rendering of `isize`). -/
def intToChars (i : Int) : Str :=
  if i < 0 then '-' :: natToChars i.natAbs else natToChars i.natAbs

/-- Value of a big-endian list of decimal digit characters. -/
def digitsVal (l : Str) : Nat := l.foldl (fun acc c => acc * 10 + (c.toNat - 48)) 0

/-- Model of Rust `f64`: a finite decimal `man / 10 ^ exp`, or a special value. -/
inductive F64 where
  | fin (man : Int) (exp : Int)
  | inf
  | neginf
  | nan
deriving DecidableEq

/-- Rust `f64::is_finite`. -/
def F64.isFinite : F64 → Bool
  | .fin _ _ => true
  | _ => false

/-- IEEE `==` on `f64` (`PartialEq`): value comparison on finite numbers,
`NaN` unequal to everything including itself. -/
def F64.beq : F64 → F64 → Bool
  | .fin m1 e1, .fin m2 e2 =>
      let m := min e1 e2
      m1 * 10 ^ (e2 - m).toNat == m2 * 10 ^ (e1 - m).toNat
  | .inf, .inf => true
  | .neginf, .neginf => true
  | _, _ => false

/-- Round `num / den` to the nearest integer, ties to even. -/
def roundHalfEvenNat (num den : Nat) : Nat :=
  let q := num / den
  let r := num % den
  if 2 * r < den then q else if den < 2 * r then q + 1 else if q % 2 = 0 then q else q + 1

def padLeftWith (fill : Char) (w : Nat) (l : Str) : Str :=
  List.replicate (w - l.length) fill ++ l

def padRightWith (fill : Char) (w : Nat) (l : Str) : Str :=
  l ++ List.replicate (w - l.length) fill

/-- Rust `{:^w}` centre alignment: the extra fill character goes to the right. -/
def centerPad (w : Nat) (l : Str) : Str :=
  let p := w - l.length
  List.replicate (p / 2) ' ' ++ l ++ List.replicate (p - p / 2) ' '

/-- Rust `{:.prec}` fixed-point rendering of an `F64` (sign taken from the
mantissa, fraction zero-padded to `prec` digits, ties rounded to even). -/
def formatF64Prec (v : F64) (prec : Nat) : Str :=
  match v with
  | .nan => s2c "NaN"
  | .inf => s2c "inf"
  | .neginf => s2c "-inf"
  | .fin man exp =>
      let a : Nat :=
        if exp ≤ (prec : Int) then man.natAbs * 10 ^ (((prec : Int) - exp).toNat)
        else roundHalfEvenNat man.natAbs (10 ^ ((exp - (prec : Int)).toNat))
      (if man < 0 then ['-'] else []) ++ natToChars (a / 10 ^ prec) ++
        (if prec = 0 then [] else '.' :: padLeftWith '0' prec (natToChars (a % 10 ^ prec)))

/-- Rust `{}` rendering of an `f64` (used only inside error messages):
specials as printed by Rust, finite values in plain decimal with trailing
fractional zeros removed.  An abstraction of the shortest-roundtrip rendering;
no claim depends on it. -/
def displayF64 (v : F64) : Str :=
  match v with
  | .nan => s2c "NaN"
  | .inf => s2c "inf"
  | .neginf => s2c "-inf"
  | .fin man exp =>
      if exp ≤ 0 then intToChars (man * 10 ^ (-exp).toNat)
      else
        (if man < 0 then ['-'] else []) ++ natToChars (man.natAbs / 10 ^ exp.toNat) ++
          '.' :: padLeftWith '0' exp.toNat (natToChars (man.natAbs % 10 ^ exp.toNat))

/-- src/error.rs `PDBError`. -/
inductive PDBError where
  | ParseError (msg : Str)
  | InvalidValue (msg : Str)
deriving DecidableEq

/-- An error flowing through `anyhow::Result`: either an `anyhow!` message or a
`PDBError` converted by `?`. -/
inductive RError where
  | amsg (msg : Str)
  | pdb (e : PDBError)
deriving DecidableEq

/-- Outcome of fallible Rust code: success, `Err`, or a panic/abort. -/
inductive RRes (α : Type) where
  | ok (val : α)
  | err (e : RError)
  | panicked (msg : Str)
deriving DecidableEq

def RRes.bind {α β : Type} : RRes α → (α → RRes β) → RRes β
  | .ok a, f => f a
  | .err e, _ => .err e
  | .panicked m, _ => .panicked m

instance : Monad RRes where
  pure := RRes.ok
  bind := RRes.bind

def RRes.isPanic {α : Type} : RRes α → Bool
  | .panicked _ => true
  | _ => false

def RRes.isErr {α : Type} : RRes α → Bool
  | .err _ => true
  | _ => false

def RRes.isOk {α : Type} : RRes α → Bool
  | .ok _ => true
  | _ => false

/-- Rust slice `&v[a..b]` on a `Vec<char>`: panics when out of range. -/
def vecSlice (l : Str) (a b : Nat) : RRes Str :=
  if a ≤ b ∧ b ≤ l.length then .ok ((l.drop a).take (b - a))
  else .panicked (s2c "slice index out of range")

/-- Rust index `v[i]` on a `Vec<char>`: panics when out of range. -/
def vecIndex (l : Str) (i : Nat) : RRes Char :=
  match l.get? i with
  | some c => .ok c
  | none => .panicked (s2c "index out of range")

/-- First `n` UTF-8 bytes of a string as characters; `none` when `n` overruns
the string or does not fall on a character boundary. -/
def byteTakeOpt : Str → Nat → Option Str
  | _, 0 => some []
  | [], _ + 1 => none
  | c :: r, n + 1 =>
      if charUtf8Size c ≤ n + 1 then (byteTakeOpt r (n + 1 - charUtf8Size c)).map (c :: ·)
      else none

/-- Drop the first `n` UTF-8 bytes of a string; `none` when `n` overruns the
string or does not fall on a character boundary. -/
def byteDropOpt : Str → Nat → Option Str
  | l, 0 => some l
  | [], _ + 1 => none
  | c :: r, n + 1 =>
      if charUtf8Size c ≤ n + 1 then byteDropOpt r (n + 1 - charUtf8Size c) else none

/-- Rust `str::get(a..b)`. -/
def byteSliceOpt (l : Str) (a b : Nat) : Option Str :=
  if a ≤ b then (byteDropOpt l a).bind (fun r => byteTakeOpt r (b - a)) else none

/-- Rust slicing `&line[..n]`: panics when `n` is not a character boundary. -/
def byteTakeOrPanic (l : Str) (n : Nat) : RRes Str :=
  match byteTakeOpt l n with
  | some p => .ok p
  | none => .panicked (s2c "byte index is not a char boundary")

/-- src/validator.rs `check_char`. -/
def check_char (c : Char) : Bool :=
  decide (c.toNat < 127 ∧ 31 < c.toNat)

/-- src/validator.rs `valid_identifier`. -/
def valid_identifier (text : Str) : Bool := text.all check_char

/-- src/validator.rs `prepare_identifier`. -/
def prepare_identifier (text : Str) : Option Str :=
  if valid_identifier text ∧ trimChars text ≠ [] then some (asciiUpper (trimChars text))
  else none

/-- src/structs/atom.rs `Atom`. -/
structure Atom where
  hetero : Bool
  serial_number : Nat
  atom_name : Str
  alt_location : Option Str
  res_name : Str
  chain_id : Str
  res_seq : Nat
  i_code : Option Str
  x : F64
  y : F64
  z : F64
  occupancy : F64
  temp_factor : F64
  segment_id : Option Str
  element : Str
  charge : Int
deriving DecidableEq

/-- src/structs/atom.rs `Atom::new`. -/
def Atom.new (hetero : Bool) (serial_number : Nat) (atom_name res_name chain_id : Str)
    (res_seq : Nat) (x y z occupancy temp_factor : F64) (element : Str) (charge : Int) :
    Option Atom :=
  if valid_identifier atom_name && valid_identifier element && x.isFinite && y.isFinite
      && z.isFinite && occupancy.isFinite && temp_factor.isFinite then
    some { hetero := hetero, serial_number := serial_number,
           atom_name := asciiUpper (trimChars atom_name),
           alt_location := none,
           res_name := asciiUpper (trimChars res_name),
           chain_id := asciiUpper (trimChars chain_id),
           res_seq := res_seq, i_code := none,
           x := x, y := y, z := z, occupancy := occupancy, temp_factor := temp_factor,
           segment_id := none,
           element := asciiUpper (trimChars element),
           charge := charge }
  else none

/-- src/structs/atom.rs `Atom::set_name`. -/
def Atom.set_name (self : Atom) (new_name : Str) : Except PDBError Unit × Atom :=
  if valid_identifier new_name then
    (.ok (), { self with atom_name := asciiUpper (trimChars new_name) })
  else
    (.error (.InvalidValue (s2c "The new name has invalid characters for atom " ++
      natToChars self.serial_number ++ s2c "\n\tinvalid value: " ++ new_name)), self)

/-- src/structs/atom.rs `Atom::set_residue_name`. -/
def Atom.set_residue_name (self : Atom) (new_res_name : Str) : Except PDBError Unit × Atom :=
  if valid_identifier new_res_name ∧ utf8Len new_res_name = 3 then
    (.ok (), { self with res_name := asciiUpper (trimChars new_res_name) })
  else
    (.error (.InvalidValue (s2c "The new residue name has invalid characters or length for atom "
      ++ natToChars self.serial_number ++ s2c "\n\tinvalid value: " ++ new_res_name)), self)

/-- src/structs/atom.rs `Atom::position`. -/
def Atom.position (self : Atom) : F64 × F64 × F64 := (self.x, self.y, self.z)

/-- src/structs/atom.rs `Atom::set_position`. -/
def Atom.set_position (self : Atom) (new_position : F64 × F64 × F64) :
    Except PDBError Unit × Atom :=
  if new_position.1.isFinite ∧ new_position.2.1.isFinite ∧ new_position.2.2.isFinite then
    (.ok (), { self with x := new_position.1, y := new_position.2.1, z := new_position.2.2 })
  else
    (.error (.InvalidValue (s2c "One (or more) of values of the new position is not finate for atom "
      ++ natToChars self.serial_number ++ s2c "\n\tinvalid values: " ++
      displayF64 new_position.1 ++ s2c " " ++ displayF64 new_position.2.1 ++ s2c " " ++
      displayF64 new_position.2.2)), self)

/-- src/structs/atom.rs `Atom::set_x`. -/
def Atom.set_x (self : Atom) (new_x : F64) : Except PDBError Unit × Atom :=
  if new_x.isFinite then (.ok (), { self with x := new_x })
  else
    (.error (.InvalidValue (s2c "The value of the new x position is not finite for atom " ++
      natToChars self.serial_number ++ s2c "\n\tinvalid value: " ++ displayF64 new_x)), self)

/-- src/structs/atom.rs `Atom::set_y`. -/
def Atom.set_y (self : Atom) (new_y : F64) : Except PDBError Unit × Atom :=
  if new_y.isFinite then (.ok (), { self with y := new_y })
  else
    (.error (.InvalidValue (s2c "The value of the new y position is not finite for atom " ++
      natToChars self.serial_number ++ s2c "\n\tinvalid value: " ++ displayF64 new_y)), self)

/-- src/structs/atom.rs `Atom::set_z`. -/
def Atom.set_z (self : Atom) (new_z : F64) : Except PDBError Unit × Atom :=
  if new_z.isFinite then (.ok (), { self with z := new_z })
  else
    (.error (.InvalidValue (s2c "The value of the new z position is not finite for atom " ++
      natToChars self.serial_number ++ s2c "\n\tinvalid value: " ++ displayF64 new_z)), self)

/-- src/structs/atom.rs `Atom::set_occupancy`. -/
def Atom.set_occupancy (self : Atom) (new_occupancy : F64) : Except PDBError Unit × Atom :=
  if new_occupancy.isFinite then (.ok (), { self with occupancy := new_occupancy })
  else
    (.error (.InvalidValue (s2c "The value of the new occupancy is not finite for atom " ++
      natToChars self.serial_number ++ s2c "\n\tinvalid value: " ++ displayF64 new_occupancy)),
      self)

/-- src/structs/atom.rs `Atom::set_temp_factor`. -/
def Atom.set_temp_factor (self : Atom) (new_temp_factor : F64) : Except PDBError Unit × Atom :=
  if new_temp_factor.isFinite then (.ok (), { self with temp_factor := new_temp_factor })
  else
    (.error (.InvalidValue (s2c "The value of the new temp_factor is not finite for atom " ++
      natToChars self.serial_number ++ s2c "\n\tinvalid value: " ++ displayF64 new_temp_factor)),
      self)

/-- src/structs/atom.rs `Atom::set_element`. -/
def Atom.set_element (self : Atom) (new_element : Str) : Except PDBError Unit × Atom :=
  if valid_identifier new_element then
    (.ok (), { self with element := asciiUpper (trimChars new_element) })
  else
    (.error (.InvalidValue (s2c "The new element has invalid characters for atom " ++
      natToChars self.serial_number ++ s2c "\n\tinvalid values: " ++ new_element)), self)

/-- src/structs/atom.rs `Atom::set_chain_id`. -/
def Atom.set_chain_id (self : Atom) (new_id : Str) : Except PDBError Unit × Atom :=
  if valid_identifier new_id ∧ utf8Len new_id = 1 then
    (.ok (), { self with chain_id := asciiUpper (trimChars new_id) })
  else
    (.error (.InvalidValue (s2c "The new chain id has invalid character for atom " ++
      natToChars self.serial_number ++ s2c "\n\tinvalid value: " ++ new_id)), self)

/-- src/structs/atom.rs `PartialEq for Atom`: serial number, name, element,
residue name, chain id, position, occupancy and temperature factor. -/
def atomBeq (a b : Atom) : Bool :=
  a.serial_number == b.serial_number && a.atom_name == b.atom_name &&
  a.element == b.element && a.res_name == b.res_name && a.chain_id == b.chain_id &&
  F64.beq a.x b.x && F64.beq a.y b.y && F64.beq a.z b.z &&
  F64.beq a.occupancy b.occupancy && F64.beq a.temp_factor b.temp_factor

/-- src/structs/pdb.rs `PDB`. -/
structure PDB where
  identifier : Option Str
  remarks : List (Nat × Str)
  atoms : List Atom
deriving DecidableEq

/-- src/structs/pdb.rs `PDB::new`. -/
def PDB.new : PDB := { identifier := none, remarks := [], atoms := [] }

/-- src/structs/pdb.rs `REMARK_TYPES`. -/
def REMARK_TYPES : List Nat :=
  [0, 1, 2, 3, 4, 5, 100, 200, 205, 210, 215, 217, 230, 240, 245, 247, 250, 265, 280, 285, 290,
   300, 350, 375, 400, 450, 465, 470, 475, 480, 500, 525, 600, 610, 615, 620, 630, 650, 700, 800,
   900, 999]

/-- src/structs/pdb.rs `PDB::set_identifier`. -/
def PDB.set_identifier (self : PDB) (new_name : Str) : Except PDBError Unit × PDB :=
  match prepare_identifier new_name with
  | some prepared => (.ok (), { self with identifier := some (asciiUpper (trimChars prepared)) })
  | none =>
      (.error (.InvalidValue (s2c "invalid name for PDB: " ++ new_name)), self)

/-- src/structs/pdb.rs `PDB::add_remarks`: an unregistered type is a typed
error, over-long text (in bytes) is a `panic!`. -/
def PDB.add_remarks (self : PDB) (remark_type : Nat) (remark_text : Str) : RRes Unit × PDB :=
  if ¬ REMARK_TYPES.contains remark_type then
    (.err (.pdb (.InvalidValue (s2c "given remark-type is not valid: " ++
      natToChars remark_type))), self)
  else if 70 < utf8Len remark_text then
    (.panicked (s2c "given remark text is too long (>70)"), self)
  else
    (.ok (), { self with remarks := self.remarks ++ [(remark_type, remark_text)] })

/-- src/structs/pdb.rs `PDB::add_atom` (no validation). -/
def PDB.add_atom (self : PDB) (new_atom : Atom) : PDB :=
  { self with atoms := self.atoms ++ [new_atom] }

/-- src/item.rs `ParsedItems`. -/
inductive ParsedItems where
  | Header (title date idnt : Str)
  | Remark (remark_type : Nat) (remark_text : Str)
  | Atom (hetero : Bool) (serial_number : Nat) (atom_name : Str) (alt_location : Option Str)
      (res_name : Str) (chain_id : Str) (res_seq : Nat) (i_code : Option Str)
      (x y z occupancy temp_factor : F64) (segment_id : Option Str) (element : Str)
      (charge : Int)
  | Ter
  | End
  | Empty
deriving DecidableEq

/-- Strip one leading `+` (the integer grammar of `from_str`). -/
def rustStripPlus : Str → Str
  | '+' :: r => r
  | l => l

/-- Split off a leading sign (the float grammar): `true` means negative. -/
def rustSign : Str → Bool × Str
  | '+' :: r => (false, r)
  | '-' :: r => (true, r)
  | l => (false, l)

/-- Rust `usize::from_str`: optional `+`, then one or more ASCII digits.
Overflow (unreachable here: every call site passes at most 5 characters) is
abstracted away. -/
def rustParseNat (l : Str) : Option Nat :=
  let ds := rustStripPlus l
  if ds ≠ [] ∧ ds.all Char.isDigit then some (digitsVal ds) else none

/-- Exponent suffix of the Rust float grammar: empty, or `e`/`E`, an optional
sign and one or more digits. -/
def parseExpSuffix : Str → Option Int
  | [] => some 0
  | c :: r =>
      if c = 'e' ∨ c = 'E' then
        if (rustSign r).2 ≠ [] ∧ (rustSign r).2.all Char.isDigit then
          some (if (rustSign r).1 then -(Int.ofNat (digitsVal (rustSign r).2))
                else Int.ofNat (digitsVal (rustSign r).2))
        else none
      else none

def mkFinF64 (neg : Bool) (intD fracD : Str) (e : Int) : F64 :=
  let man : Int := Int.ofNat (digitsVal (intD ++ fracD))
  F64.fin (if neg then -man else man) ((fracD.length : Int) - e)

/-- Rust `f64::from_str`: optional sign, then `inf`/`infinity`/`nan`
(ASCII-case-insensitive) or a decimal number with at least one digit and an
optional exponent.  Decimal values are taken exactly (see the header note). -/
def rustParseF64 (l : Str) : Option F64 :=
  match l with
  | [] => none
  | _ =>
    let neg := (rustSign l).1
    let rest := (rustSign l).2
    let low := rest.map Char.toLower
    if low = s2c "inf" ∨ low = s2c "infinity" then some (if neg then .neginf else .inf)
    else if low = s2c "nan" then some .nan
    else
      let intD := rest.takeWhile Char.isDigit
      let rest2 := rest.dropWhile Char.isDigit
      match rest2 with
      | '.' :: rest3 =>
          let fracD := rest3.takeWhile Char.isDigit
          let rest4 := rest3.dropWhile Char.isDigit
          if intD = [] ∧ fracD = [] then none
          else (parseExpSuffix rest4).map (mkFinF64 neg intD fracD)
      | _ =>
          if intD = [] then none
          else (parseExpSuffix rest2).map (mkFinF64 neg intD [])

/-- src/read.rs `parse_usize`: strip all whitespace, then parse. -/
def parse_usize (input : Str) (line_number : Nat) : RRes Nat :=
  let string := input.filter (fun c => ¬ rustIsWhitespace c)
  match rustParseNat string with
  | some n => .ok n
  | none => .err (.amsg (s2c "can not parse the number as usize at line " ++
      natToChars line_number ++ s2c ": " ++ input))

/-- src/read.rs `parse_f64`: strip all whitespace, then parse. -/
def parse_f64 (input : Str) (line_number : Nat) : RRes F64 :=
  let string := input.filter (fun c => ¬ rustIsWhitespace c)
  match rustParseF64 string with
  | some v => .ok v
  | none => .err (.amsg (s2c "can not parse the number as f64 at line " ++
      natToChars line_number ++ s2c ": " ++ input))

/-- src/read.rs `parse_header`. -/
def parse_header (line : Str) (line_number : Nat) : RRes ParsedItems :=
  if utf8Len line < 66 then
    .err (.amsg (s2c "Header is too short: line " ++ natToChars line_number))
  else
    .ok (.Header ((byteSliceOpt line 10 50).getD [])
                 ((byteSliceOpt line 50 59).getD [])
                 ((byteSliceOpt line 62 66).getD []))

/-- src/read.rs `parse_remarks`.  The slice `chars[7..10]` panics on lines of
fewer than 10 characters. -/
def parse_remarks (line : Str) (line_number : Nat) : RRes ParsedItems := do
  if 80 < utf8Len line then
    .err (.amsg (s2c "remarks is too long"))
  else do
    let tfield ← vecSlice line 7 10
    let number ← parse_usize tfield line_number
    .ok (.Remark number (trimEndChars ((byteDropOpt line 11).getD [])))

/-- src/read.rs `parse_atom`.  All slices are over the `Vec<char>` of the line;
the guarded ones (up to column 54, and the conditional occupancy, temperature
and charge fields) are in range, the element slice `chars[76..78]` is taken as
soon as the line has 77 characters and so panics on a 77-character line. -/
def parse_atom (line : Str) (line_number : Nat) (hetero : Bool) : RRes ParsedItems := do
  let chars := line
  if chars.length < 54 then
    .err (.amsg (s2c "Atom line is too short: line " ++ natToChars line_number))
  else do
    let s5 ← vecSlice chars 6 11
    let serial_number ← parse_usize s5 line_number
    let atom_name ← vecSlice chars 12 16
    let res_name ← vecSlice chars 17 20
    let cc ← vecIndex chars 21
    let q4 ← vecSlice chars 22 26
    let res_seq ← parse_usize q4 line_number
    let xs ← vecSlice chars 30 38
    let x ← parse_f64 xs line_number
    let ys ← vecSlice chars 38 46
    let y ← parse_f64 ys line_number
    let zs ← vecSlice chars 46 54
    let z ← parse_f64 zs line_number
    let occupancy ← if 60 ≤ chars.length then do
        let os ← vecSlice chars 54 60
        parse_f64 os line_number
      else pure (F64.fin 1 0)
    let temp_factor ← if 66 ≤ chars.length then do
        let ts ← vecSlice chars 60 66
        parse_f64 ts line_number
      else pure (F64.fin 0 0)
    let element ← if 77 ≤ chars.length then vecSlice chars 76 78 else pure []
    let charge ← if 80 ≤ chars.length then do
        let c78 ← vecIndex chars 78
        let c79 ← vecIndex chars 79
        if ¬ (rustIsWhitespace c78 ∧ rustIsWhitespace c79) then
          if ¬ c78.isDigit then
            .err (.amsg (s2c "atom charge is not collect numeric ([0-9][+-]) at line " ++
              natToChars line_number ++ s2c ": " ++ [c78]))
          else if ¬ (c79 = '-' ∨ c79 = '+') then
            .err (.amsg (s2c "atom charge is not properly signed ([0-9][+-]) at line " ++
              natToChars line_number ++ s2c ": " ++ [c78]))
          else
            pure (Int.ofNat (c78.toNat - 48))
        else pure (0 : Int)
      else pure (0 : Int)
    .ok (.Atom hetero serial_number atom_name none res_name [cc] res_seq none
          x y z occupancy temp_factor none element charge)

/-- src/read.rs `parse_line`.  The byte slices `&line[..6]` and `&line[..2]`
panic when the cut is not a character boundary.  Note that in the second tier
the source compares a two-byte slice against the three-byte literals `TER` and
`END`, which can never match. -/
def parse_line (line : Str) (line_number : Nat) : RRes ParsedItems :=
  if 6 < utf8Len line then
    match byteTakeOpt line 6 with
    | none => .panicked (s2c "byte index 6 is not a char boundary")
    | some p =>
      if p = s2c "HEADER" then parse_header line line_number
      else if p = s2c "REMARK" then parse_remarks line line_number
      else if p = s2c "HETATM" then parse_atom line line_number true
      else if p = s2c "ATOM  " then parse_atom line line_number false
      else if p = s2c "TER   " then .ok .Ter
      else if p = s2c "END   " then .ok .End
      else .ok .Empty
  else if 2 < utf8Len line then
    match byteTakeOpt line 2 with
    | none => .panicked (s2c "byte index 2 is not a char boundary")
    | some p =>
      if p = s2c "TER" then .ok .Ter
      else if p = s2c "END" then .ok .End
      else .ok .Empty
  else .ok .Empty

/-- One iteration of the src/read.rs `read_pdb_raw` loop body: `if let
Ok(result) = parse_result` silently drops parse errors and keeps going, while
errors from `set_identifier`, `add_remarks` and `Atom::new` propagate via `?`
(the `Atom::new` failure as `anyhow!("")`). -/
def foldLine (pdb : PDB) (line : Str) (line_number : Nat) : RRes PDB :=
  match parse_line line line_number with
  | .panicked m => .panicked m
  | .err _ => .ok pdb
  | .ok item =>
    match item with
    | .Header _ _ idnt =>
        match PDB.set_identifier pdb idnt with
        | (.ok _, p2) => .ok p2
        | (.error e, _) => .err (.pdb e)
    | .Remark t txt =>
        match PDB.add_remarks pdb t txt with
        | (.ok _, p2) => .ok p2
        | (.err e, _) => .err e
        | (.panicked m, _) => .panicked m
    | .Atom h sn nm _al rn ci rs _ic x y z oc tf _sg el ch =>
        match Atom.new h sn nm rn ci rs x y z oc tf el ch with
        | some a => .ok (PDB.add_atom pdb a)
        | none => .err (.amsg [])
    | .Ter => .ok pdb
    | .End => .ok pdb
    | .Empty => .ok pdb

def readLoop : List Str → Nat → PDB → RRes PDB
  | [], _, pdb => .ok pdb
  | l :: rest, ln, pdb =>
    match foldLine pdb l ln with
    | .ok p2 => readLoop rest (ln + 1) p2
    | .err e => .err e
    | .panicked m => .panicked m

/-- src/read.rs `read_pdb_raw`: fold the lines, with 1-based line numbers. -/
def read_pdb_raw (lines : List Str) : RRes PDB := readLoop lines 1 PDB.new

/-- src/save.rs `write_line` closure: pad with spaces to at least 70 bytes. -/
def write_line (line : Str) : Str :=
  if utf8Len line < 70 then line ++ List.replicate (70 - utf8Len line) ' ' else line

/-- src/save.rs: the atom line `format!`. -/
def atomLine (atom : Atom) : Str :=
  (if atom.hetero then s2c "HETATM" else s2c "ATOM  ")
  ++ padLeftWith ' ' 5 (natToChars atom.serial_number)
  ++ [' ']
  ++ centerPad 4 atom.atom_name
  ++ padRightWith ' ' 1 (atom.alt_location.getD (s2c " "))
  ++ padRightWith ' ' 4 atom.res_name
  ++ padRightWith ' ' 1 atom.chain_id
  ++ padLeftWith ' ' 4 (natToChars atom.res_seq)
  ++ padRightWith ' ' 1 (atom.i_code.getD (s2c " "))
  ++ s2c "   "
  ++ padLeftWith ' ' 8 (formatF64Prec atom.x 3)
  ++ padLeftWith ' ' 8 (formatF64Prec atom.y 3)
  ++ padLeftWith ' ' 8 (formatF64Prec atom.z 3)
  ++ padLeftWith ' ' 6 (formatF64Prec atom.occupancy 2)
  ++ padLeftWith ' ' 6 (formatF64Prec atom.temp_factor 2)
  ++ s2c "          "
  ++ padLeftWith ' ' 2 atom.element
  ++ intToChars atom.charge

/-- src/save.rs `save_pdb_raw`, as the list of emitted lines (each is written
followed by a newline; the stream itself is abstracted). -/
def save_pdb_raw (pdb : PDB) (atom_only : Bool) : List Str :=
  (if ¬ atom_only then
    (match pdb.identifier with
     | some idnt => [write_line (s2c "HEADER" ++ List.replicate 56 ' ' ++ idnt)]
     | none => [])
    ++ pdb.remarks.map (fun r =>
        write_line (s2c "REMARK " ++ padLeftWith ' ' 3 (natToChars r.1) ++ [' '] ++ r.2))
  else [])
  ++ pdb.atoms.map (fun a => write_line (atomLine a))
  ++ [write_line (s2c "TER")]

/-- The equivalence the round-trip claim uses: identifier and remark sequence
equal, atom sequences elementwise equal by the `PartialEq` of `Atom`. -/
def pdbMatches (p q : PDB) : Prop :=
  p.identifier = q.identifier ∧ p.remarks = q.remarks ∧
  List.Forall₂ (fun a b => atomBeq a b = true) p.atoms q.atoms

/-- Value of a little-endian decimal digit list (proof helper for `digitsFuel`). -/
def ofDigitsLE : List Nat → Nat
  | [] => 0
  | d :: r => d + 10 * ofDigitsLE r

/-- The Atom invariant the spec states: valid name and element, finite numeric
fields. -/
def atomInv (a : Atom) : Bool :=
  valid_identifier a.atom_name && valid_identifier a.element &&
  a.x.isFinite && a.y.isFinite && a.z.isFinite && a.occupancy.isFinite &&
  a.temp_factor.isFinite

/-- `v` is exactly a signed count of thousandths within the given bounds. -/
def f64Thousandths (v : F64) (lo hi : Int) : Bool :=
  match v with
  | .fin m e => e == 3 && decide (lo ≤ m) && decide (m ≤ hi)
  | _ => false

/-- `v` is exactly a signed count of hundredths within the given bounds. -/
def f64Hundredths (v : F64) (lo hi : Int) : Bool :=
  match v with
  | .fin m e => e == 2 && decide (lo ≤ m) && decide (m ≤ hi)
  | _ => false

/-- A stored remark that survives the write/read round trip: registered type,
text at most 69 bytes, no trailing whitespace (the reader right-trims), and no
embedded newline (the writer would split the physical line). -/
def wfRemark (r : Nat × Str) : Bool :=
  REMARK_TYPES.contains r.1 && decide (utf8Len r.2 ≤ 69) && (trimEndChars r.2 == r.2) &&
  (r.2.contains '\n' == false)

/-- A stored atom whose fields fit the fixed columns exactly, so that the
written line re-reads to the same values: identifier-valid trimmed upper-cased
strings within their column widths, numbers within field widths, coordinates
exact multiples of 0.001 and occupancy/temperature exact multiples of 0.01
within their 8/6 character fields, charge a single digit, and no
alternate-location or insertion code (the writer would widen the line). -/
def wfAtomForSave (a : Atom) : Bool :=
  decide (a.serial_number ≤ 99999) &&
  valid_identifier a.atom_name && (trimChars a.atom_name == a.atom_name) &&
  (asciiUpper a.atom_name == a.atom_name) && decide (a.atom_name.length ≤ 4) &&
  (a.alt_location == none) &&
  valid_identifier a.res_name && (trimChars a.res_name == a.res_name) &&
  (asciiUpper a.res_name == a.res_name) && decide (a.res_name.length ≤ 3) &&
  valid_identifier a.chain_id && (trimChars a.chain_id == a.chain_id) &&
  (asciiUpper a.chain_id == a.chain_id) && decide (a.chain_id.length ≤ 1) &&
  decide (a.res_seq ≤ 9999) && (a.i_code == none) &&
  f64Thousandths a.x (-999999) 9999999 && f64Thousandths a.y (-999999) 9999999 &&
  f64Thousandths a.z (-999999) 9999999 &&
  f64Hundredths a.occupancy (-9999) 99999 && f64Hundredths a.temp_factor (-9999) 99999 &&
  valid_identifier a.element && (trimChars a.element == a.element) &&
  (asciiUpper a.element == a.element) && decide (a.element.length ≤ 2) &&
  decide (0 ≤ a.charge) && decide (a.charge ≤ 9)

/-- A structure whose write/read round trip preserves everything the defined
atom equality compares. -/
def wfPDBForSave (pdb : PDB) : Bool :=
  (match pdb.identifier with
   | none => true
   | some idnt =>
      valid_identifier idnt && (trimChars idnt == idnt) && (asciiUpper idnt == idnt) &&
      !idnt.isEmpty && decide (idnt.length ≤ 4)) &&
  pdb.remarks.all wfRemark && pdb.atoms.all wfAtomForSave

/-- The atom that reading a written atom line reconstructs: identical except
that the charge column is not reached (the written line is 79 characters) and
the segment id is not written. -/
def readBackAtom (a : Atom) : Atom := { a with charge := 0, segment_id := none }

/-- The scenario atom of the spec (§8). -/
def atomScen : Atom :=
  { hetero := false, serial_number := 1, atom_name := ['N'], alt_location := none,
    res_name := s2c "ALA", chain_id := ['A'], res_seq := 1, i_code := none,
    x := .fin 11104 3, y := .fin 13207 3, z := .fin 2123 3,
    occupancy := .fin 100 2, temp_factor := .fin 2000 2,
    segment_id := none, element := ['N'], charge := 0 }

/-- A concrete structure built from valid constructions, for witnesses. -/
def pdbScen : PDB :=
  { identifier := some (s2c "1ABC"), remarks := [(3, s2c "RESOLUTION.")], atoms := [atomScen] }

/-- A structure holding a remark whose text has a trailing space. -/
def pdbRemarkTrailing : PDB :=
  { identifier := none, remarks := [(3, s2c "A ")], atoms := [] }

/-- An ATOM-tagged line that is too short for the atom column contract. -/
def lineShortAtom : Str := s2c "ATOM  X"

/-- A remark text of 71 characters. -/
def text71 : Str := List.replicate 71 'A'

/-- An ATOM line of exactly 77 characters (66 characters of valid fields plus
11 trailing spaces). -/
def atomLine77 : Str :=
  s2c "ATOM      1  N   ALA A   1      11.104  13.207   2.123  1.00 20.00" ++
  List.replicate 11 ' '

/-- The 80-character scenario line of the spec (§8); columns 78 and 79 blank. -/
def scenLine80 : Str :=
  s2c "ATOM      1  N   ALA A   1      11.104  13.207   2.123  1.00 20.00           N  "

/-- The scenario line with charge columns `5+`. -/
def chargeLine : Str := scenLine80.take 78 ++ s2c "5+"

/-- The scenario line with a non-digit in charge column 78. -/
def badChargeLine : Str := scenLine80.take 78 ++ s2c "X+"

/-- The scenario line with a non-sign in charge column 79. -/
def badSignLine : Str := scenLine80.take 78 ++ s2c "50"

/-- A REMARK-tagged line of only 8 characters (type field missing). -/
def remarkShort : Str := s2c "REMARK 3"

/-- A 7-byte line whose 6th byte falls inside a two-byte character, so the
slice `&line[..6]` is not on a character boundary. -/
def nonBoundaryLine : Str := s2c "REMAR" ++ ['é']

/-! Generic list and character lemmas. -/

theorem dropWhile_append_of_all {p : Char → Bool} (a b : Str) (h : ∀ c ∈ a, p c = true) :
    (a ++ b).dropWhile p = b.dropWhile p := by
  induction a with
  | nil => rfl
  | cons c r ih =>
      simp only [List.cons_append, List.dropWhile_cons]
      rw [h c (by simp)]
      exact ih fun x hx => h x (by simp [hx])

theorem takeWhile_eq_self_of_all {p : Char → Bool} (l : Str) (h : ∀ c ∈ l, p c = true) :
    l.takeWhile p = l := by
  induction l with
  | nil => rfl
  | cons c r ih =>
      simp only [List.takeWhile_cons]
      rw [h c (by simp)]
      simp [ih fun x hx => h x (by simp [hx])]

theorem dropWhile_eq_nil_of_all {p : Char → Bool} (l : Str) (h : ∀ c ∈ l, p c = true) :
    l.dropWhile p = [] := by
  induction l with
  | nil => rfl
  | cons c r ih =>
      simp only [List.dropWhile_cons]
      rw [h c (by simp)]
      exact ih fun x hx => h x (by simp [hx])

theorem takeWhile_append_stop {p : Char → Bool} (a : Str) (c : Char) (b : Str)
    (ha : ∀ x ∈ a, p x = true) (hc : p c = false) :
    (a ++ c :: b).takeWhile p = a := by
  induction a with
  | nil => simp [List.takeWhile_cons, hc]
  | cons d r ih =>
      simp only [List.cons_append, List.takeWhile_cons]
      rw [ha d (by simp)]
      simp [ih fun x hx => ha x (by simp [hx])]

theorem dropWhile_append_stop {p : Char → Bool} (a : Str) (c : Char) (b : Str)
    (ha : ∀ x ∈ a, p x = true) (hc : p c = false) :
    (a ++ c :: b).dropWhile p = c :: b := by
  rw [dropWhile_append_of_all a (c :: b) ha]
  simp [List.dropWhile_cons, hc]

theorem length_dropWhile_le (p : Char → Bool) (l : Str) :
    (l.dropWhile p).length ≤ l.length := by
  induction l with
  | nil => simp
  | cons c r ih =>
      simp only [List.dropWhile_cons]
      cases h : p c with
      | true => simpa using Nat.le_succ_of_le ih
      | false => simp

theorem dropWhile_eq_self_of_length (p : Char → Bool) (l : Str)
    (h : (l.dropWhile p).length = l.length) : l.dropWhile p = l := by
  induction l with
  | nil => rfl
  | cons c r ih =>
      by_cases hc : p c = true
      · exfalso
        rw [List.dropWhile_cons, if_pos hc] at h
        have := length_dropWhile_le p r
        simp only [List.length_cons] at h
        omega
      · rw [List.dropWhile_cons, if_neg hc]

/-! Trim lemmas. -/

theorem trimEnd_length_le (l : Str) : (trimEndChars l).length ≤ l.length := by
  unfold trimEndChars
  simpa using length_dropWhile_le rustIsWhitespace l.reverse

theorem ltrim_length_le (l : Str) : (ltrimChars l).length ≤ l.length :=
  length_dropWhile_le rustIsWhitespace l

theorem ltrim_of_trim_eq_self (l : Str) (h : trimChars l = l) : ltrimChars l = l := by
  have h1 : (trimChars l).length = l.length := by rw [h]
  have h2 : (trimChars l).length ≤ (ltrimChars l).length := trimEnd_length_le (ltrimChars l)
  have h3 : (ltrimChars l).length ≤ l.length := ltrim_length_le l
  exact dropWhile_eq_self_of_length _ _ (show (ltrimChars l).length = l.length by omega)

theorem trimEnd_of_trim_eq_self (l : Str) (h : trimChars l = l) : trimEndChars l = l := by
  have h1 := ltrim_of_trim_eq_self l h
  unfold trimChars at h
  rwa [h1] at h

theorem ltrim_append_ws (sp l : Str) (h : ∀ c ∈ sp, rustIsWhitespace c = true) :
    ltrimChars (sp ++ l) = ltrimChars l :=
  dropWhile_append_of_all sp l h

theorem trimEnd_append_ws (l sp : Str) (h : ∀ c ∈ sp, rustIsWhitespace c = true) :
    trimEndChars (l ++ sp) = trimEndChars l := by
  unfold trimEndChars
  rw [List.reverse_append, dropWhile_append_of_all sp.reverse l.reverse
    (fun c hc => h c (by simpa using hc))]

theorem ltrim_append_of_ltrim_eq_self (l r : Str) (h : ltrimChars l = l) (hne : l ≠ []) :
    ltrimChars (l ++ r) = l ++ r := by
  cases l with
  | nil => exact absurd rfl hne
  | cons c t =>
      have hc : rustIsWhitespace c = false := by
        by_contra hc
        have hc' : rustIsWhitespace c = true := by
          cases h' : rustIsWhitespace c
          · exact absurd h' hc
          · rfl
        unfold ltrimChars at h
        rw [List.dropWhile_cons, if_pos hc'] at h
        have := length_dropWhile_le rustIsWhitespace t
        have hlen : (List.dropWhile rustIsWhitespace t).length = t.length + 1 := by
          rw [h]; simp
        omega
      unfold ltrimChars
      simp [List.dropWhile_cons, hc]

theorem trim_pad (sp1 l sp2 : Str) (hl : trimChars l = l)
    (h1 : ∀ c ∈ sp1, rustIsWhitespace c = true) (h2 : ∀ c ∈ sp2, rustIsWhitespace c = true) :
    trimChars (sp1 ++ (l ++ sp2)) = l := by
  unfold trimChars
  rw [ltrim_append_ws sp1 (l ++ sp2) h1]
  cases hn : l with
  | nil =>
      subst hn
      simp only [List.nil_append]
      rw [show ltrimChars sp2 = [] from dropWhile_eq_nil_of_all sp2 h2]
      rfl
  | cons c t =>
      rw [← hn]
      have hne : l ≠ [] := by simp [hn]
      rw [ltrim_append_of_ltrim_eq_self l sp2 (ltrim_of_trim_eq_self l hl) hne]
      rw [trimEnd_append_ws l sp2 h2]
      exact trimEnd_of_trim_eq_self l hl

/-! Decimal digit lemmas. -/

theorem digitsFuel_all_lt_ten : ∀ (fuel n d : Nat), d ∈ digitsFuel fuel n → d < 10 := by
  intro fuel
  induction fuel with
  | zero => intro n d h; simp [digitsFuel] at h
  | succ f ih =>
      intro n d h
      by_cases hn : n = 0
      · simp [digitsFuel, hn] at h
      · rw [digitsFuel, if_neg hn] at h
        rcases List.mem_cons.mp h with h1 | h2
        · subst h1; exact Nat.mod_lt n (by omega)
        · exact ih _ _ h2

theorem ofDigitsLE_digitsFuel : ∀ (fuel n : Nat), n ≤ fuel → ofDigitsLE (digitsFuel fuel n) = n := by
  intro fuel
  induction fuel with
  | zero => intro n h; interval_cases n; simp [digitsFuel, ofDigitsLE]
  | succ f ih =>
      intro n h
      by_cases hn : n = 0
      · simp [digitsFuel, hn, ofDigitsLE]
      · rw [digitsFuel, if_neg hn, ofDigitsLE]
        have hd : n / 10 ≤ f := by
          have h10 := Nat.div_lt_self (Nat.pos_of_ne_zero hn) (show 1 < 10 by norm_num)
          omega
        rw [ih (n / 10) hd]
        omega

theorem digitsFuel_length_le : ∀ (fuel n k : Nat), n ≤ fuel → n < 10 ^ k →
    (digitsFuel fuel n).length ≤ k := by
  intro fuel
  induction fuel with
  | zero => intro n k h _; interval_cases n; simp [digitsFuel]
  | succ f ih =>
      intro n k h hk
      by_cases hn : n = 0
      · simp [digitsFuel, hn]
      · rw [digitsFuel, if_neg hn]
        cases k with
        | zero => simp at hk; omega
        | succ k' =>
            simp only [List.length_cons]
            have hd : n / 10 ≤ f := by
              have h10 := Nat.div_lt_self (Nat.pos_of_ne_zero hn) (show 1 < 10 by norm_num)
              omega
            have hlt : n / 10 < 10 ^ k' := by
              rw [Nat.div_lt_iff_lt_mul (by omega)]
              calc n < 10 ^ (k' + 1) := hk
                _ = 10 ^ k' * 10 := by ring
            have := ih (n / 10) k' hd hlt
            omega

theorem digitsFuel_ne_nil (fuel n : Nat) (h : n ≠ 0) (hf : n ≤ fuel) :
    digitsFuel fuel n ≠ [] := by
  cases fuel with
  | zero => omega
  | succ f => rw [digitsFuel, if_neg h]; simp

theorem digitChar_toNat : ∀ d, d < 10 → (digitChar d).toNat = 48 + d := by decide

theorem digitChar_isDigit : ∀ d, d < 10 → (digitChar d).isDigit = true := by decide

theorem digitChar_not_ws : ∀ d, d < 10 → rustIsWhitespace (digitChar d) = false := by decide

theorem digitChar_check : ∀ d, d < 10 → check_char (digitChar d) = true := by decide

theorem digitChar_ne_plus : ∀ d, d < 10 → digitChar d ≠ '+' := by decide

theorem digitChar_ne_minus : ∀ d, d < 10 → digitChar d ≠ '-' := by decide

theorem digitChar_toLower_ne_i : ∀ d, d < 10 → (digitChar d).toLower ≠ 'i' := by decide

theorem digitChar_toLower_ne_n : ∀ d, d < 10 → (digitChar d).toLower ≠ 'n' := by decide

theorem natToChars_shape (n : Nat) : ∃ ds : List Nat, (∀ d ∈ ds, d < 10) ∧ ds ≠ [] ∧
    natToChars n = ds.map digitChar := by
  by_cases hn : n = 0
  · exact ⟨[0], by simp, by simp, by simp [hn, natToChars]; rfl⟩
  · refine ⟨(natDigitsLE n).reverse, ?_, ?_, by simp [natToChars, hn]⟩
    · intro d hd
      exact digitsFuel_all_lt_ten n n d (by simpa using hd)
    · simp only [ne_eq, List.reverse_eq_nil_iff]
      exact digitsFuel_ne_nil n n hn le_rfl

theorem natToChars_all_digit (n : Nat) : ∀ c ∈ natToChars n, c.isDigit = true := by
  obtain ⟨ds, hlt, _, hshape⟩ := natToChars_shape n
  rw [hshape]
  intro c hc
  obtain ⟨d, hd, rfl⟩ := List.mem_map.mp hc
  exact digitChar_isDigit d (hlt d hd)

theorem natToChars_not_ws (n : Nat) : ∀ c ∈ natToChars n, rustIsWhitespace c = false := by
  obtain ⟨ds, hlt, _, hshape⟩ := natToChars_shape n
  rw [hshape]
  intro c hc
  obtain ⟨d, hd, rfl⟩ := List.mem_map.mp hc
  exact digitChar_not_ws d (hlt d hd)

theorem natToChars_ne_nil (n : Nat) : natToChars n ≠ [] := by
  obtain ⟨ds, _, hne, hshape⟩ := natToChars_shape n
  rw [hshape]
  simpa using hne

theorem natToChars_length_le (n k : Nat) (hk : 1 ≤ k) (h : n < 10 ^ k) :
    (natToChars n).length ≤ k := by
  by_cases hn : n = 0
  · simp [natToChars, hn]; omega
  · rw [natToChars, if_neg hn]
    simpa using digitsFuel_length_le n n k le_rfl h

/-! Values of digit strings. -/

theorem foldl_digits_acc (l : Str) : ∀ acc : Nat,
    l.foldl (fun acc c => acc * 10 + (c.toNat - 48)) acc =
      acc * 10 ^ l.length + digitsVal l := by
  induction l with
  | nil => intro acc; simp [digitsVal]
  | cons c r ih =>
      intro acc
      have hr : digitsVal (c :: r) = (c.toNat - 48) * 10 ^ r.length + digitsVal r := by
        unfold digitsVal
        rw [List.foldl_cons, ih]
        simp only [Nat.zero_mul, Nat.zero_add]
        rfl
      rw [List.foldl_cons, ih, hr]
      simp only [List.length_cons]
      ring

theorem digitsVal_append (a b : Str) :
    digitsVal (a ++ b) = digitsVal a * 10 ^ b.length + digitsVal b := by
  unfold digitsVal
  rw [List.foldl_append, foldl_digits_acc]
  rfl

theorem digitsVal_replicate_zero (k : Nat) : digitsVal (List.replicate k '0') = 0 := by
  induction k with
  | zero => rfl
  | succ j ih =>
      have : List.replicate (j + 1) '0' = List.replicate j '0' ++ ['0'] := by
        rw [List.replicate_succ' j '0']
      rw [this, digitsVal_append, ih]
      rfl

theorem digitsVal_padZero (k : Nat) (l : Str) :
    digitsVal (padLeftWith '0' k l) = digitsVal l := by
  unfold padLeftWith
  rw [digitsVal_append, digitsVal_replicate_zero]
  simp

theorem digitsVal_map_digitChar (ds : List Nat) (h : ∀ d ∈ ds, d < 10) :
    digitsVal (ds.reverse.map digitChar) = ofDigitsLE ds := by
  induction ds with
  | nil => rfl
  | cons d r ih =>
      rw [List.reverse_cons, List.map_append, digitsVal_append]
      rw [ih fun x hx => h x (by simp [hx])]
      simp only [List.map_cons, List.map_nil, List.length_cons, List.length_nil]
      have hd : d < 10 := h d (by simp)
      have : digitsVal [digitChar d] = d := by
        unfold digitsVal
        simp [List.foldl_cons, digitChar_toNat d hd]
      rw [this, ofDigitsLE]
      ring

theorem digitsVal_natToChars (n : Nat) : digitsVal (natToChars n) = n := by
  by_cases hn : n = 0
  · subst hn; rfl
  · rw [natToChars, if_neg hn]
    unfold natDigitsLE
    rw [digitsVal_map_digitChar _ (fun d hd => digitsFuel_all_lt_ten n n d hd)]
    exact ofDigitsLE_digitsFuel n n le_rfl

/-! Padding and filtering lemmas. -/

theorem padLeftWith_length (f : Char) (w : Nat) (l : Str) :
    (padLeftWith f w l).length = max w l.length := by
  unfold padLeftWith
  simp only [List.length_append, List.length_replicate]
  omega

theorem padRightWith_length (f : Char) (w : Nat) (l : Str) :
    (padRightWith f w l).length = max w l.length := by
  unfold padRightWith
  simp only [List.length_append, List.length_replicate]
  omega

theorem centerPad_length (w : Nat) (l : Str) :
    (centerPad w l).length = max w l.length := by
  unfold centerPad
  simp only [List.length_append, List.length_replicate]
  omega

theorem replicate_all_ws (k : Nat) : ∀ c ∈ List.replicate k ' ', rustIsWhitespace c = true := by
  intro c hc
  rw [List.eq_of_mem_replicate hc]
  decide

theorem filter_all_false {p : Char → Bool} (l : Str) (h : ∀ c ∈ l, p c = false) :
    l.filter p = [] := by
  induction l with
  | nil => rfl
  | cons c r ih =>
      rw [List.filter_cons, if_neg (by simp [h c (by simp)])]
      exact ih fun x hx => h x (by simp [hx])

theorem filter_strip_pad (w : Nat) (l : Str) (h : ∀ c ∈ l, rustIsWhitespace c = false) :
    (padLeftWith ' ' w l).filter (fun c => ¬ rustIsWhitespace c) = l := by
  unfold padLeftWith
  rw [List.filter_append]
  rw [filter_all_false (List.replicate (w - l.length) ' ')
    (fun c hc => by rw [List.eq_of_mem_replicate hc]; decide)]
  rw [List.filter_eq_self.mpr (fun c hc => by simp [h c hc])]
  simp

/-! Unsigned parse round trip. -/

theorem rustStripPlus_of_ne (c : Char) (r : Str) (hc : c ≠ '+') :
    rustStripPlus (c :: r) = c :: r := by
  unfold rustStripPlus
  split
  · next heq =>
      injection heq with ha hb
      exact absurd ha hc
  · rfl

theorem rustSign_of_ne (c : Char) (r : Str) (hp : c ≠ '+') (hm : c ≠ '-') :
    rustSign (c :: r) = (false, c :: r) := by
  unfold rustSign
  split
  · next heq =>
      injection heq with ha hb
      exact absurd ha hp
  · next heq =>
      injection heq with ha hb
      exact absurd ha hm
  · rfl

theorem rustParseNat_digits (l : Str) (h1 : l ≠ []) (h2 : ∀ c ∈ l, c.isDigit = true) :
    rustParseNat l = some (digitsVal l) := by
  unfold rustParseNat
  cases l with
  | nil => exact absurd rfl h1
  | cons c r =>
      have hc : c.isDigit = true := h2 c (by simp)
      have hcp : c ≠ '+' := by
        intro he
        rw [he] at hc
        exact absurd hc (by decide)
      rw [rustStripPlus_of_ne c r hcp]
      rw [if_pos ⟨by simp, List.all_eq_true.mpr (fun x hx => h2 x hx)⟩]

theorem parse_usize_padded (n w ln : Nat) :
    parse_usize (padLeftWith ' ' w (natToChars n)) ln = .ok n := by
  unfold parse_usize
  rw [filter_strip_pad w _ (natToChars_not_ws n)]
  simp only [rustParseNat_digits _ (natToChars_ne_nil n) (natToChars_all_digit n),
    digitsVal_natToChars]

theorem rustSign_fst_of_ne (c : Char) (r : Str) (hp : c ≠ '+') (hm : c ≠ '-') :
    (rustSign (c :: r)).1 = false := by
  rw [rustSign_of_ne c r hp hm]

theorem rustSign_snd_of_ne (c : Char) (r : Str) (hp : c ≠ '+') (hm : c ≠ '-') :
    (rustSign (c :: r)).2 = c :: r := by
  rw [rustSign_of_ne c r hp hm]

theorem rustParseF64_shape (d : Nat) (ds' : List Nat) (hds : ∀ x ∈ d :: ds', x < 10)
    (fracS : Str) (hF : ∀ c ∈ fracS, c.isDigit = true) :
    rustParseF64 ((d :: ds').map digitChar ++ '.' :: fracS) =
      some (.fin (Int.ofNat (digitsVal ((d :: ds').map digitChar ++ fracS)))
        ((fracS.length : Int))) := by
  have hd : d < 10 := hds d (by simp)
  have hform : (d :: ds').map digitChar ++ '.' :: fracS =
      digitChar d :: (ds'.map digitChar ++ '.' :: fracS) := by simp
  have hall : ∀ c ∈ (d :: ds').map digitChar, c.isDigit = true := by
    intro c hc
    obtain ⟨x, hx, rfl⟩ := List.mem_map.mp hc
    exact digitChar_isDigit x (hds x hx)
  have hTake : ((d :: ds').map digitChar ++ '.' :: fracS).takeWhile Char.isDigit =
      (d :: ds').map digitChar := takeWhile_append_stop _ '.' _ hall (by decide)
  have hDrop : ((d :: ds').map digitChar ++ '.' :: fracS).dropWhile Char.isDigit =
      '.' :: fracS := dropWhile_append_stop _ '.' _ hall (by decide)
  rw [hform]
  simp only [rustParseF64]
  rw [rustSign_fst_of_ne _ _ (digitChar_ne_plus d hd) (digitChar_ne_minus d hd),
      rustSign_snd_of_ne _ _ (digitChar_ne_plus d hd) (digitChar_ne_minus d hd)]
  rw [← hform, hTake, hDrop]
  have hinfL : s2c "inf" = 'i' :: 'n' :: 'f' :: [] := rfl
  have hinfyL : s2c "infinity" = 'i' :: s2c "nfinity" := rfl
  have hnanL : s2c "nan" = 'n' :: 'a' :: 'n' :: [] := rfl
  rw [if_neg, if_neg]
  · show (if List.map digitChar (d :: ds') = [] ∧ List.takeWhile Char.isDigit fracS = [] then
        none
      else
        Option.map (mkFinF64 false (List.map digitChar (d :: ds')) (List.takeWhile Char.isDigit fracS))
          (parseExpSuffix (List.dropWhile Char.isDigit fracS))) =
      some (F64.fin (Int.ofNat (digitsVal (List.map digitChar (d :: ds') ++ fracS)))
        (fracS.length : Int))
    rw [takeWhile_eq_self_of_all fracS hF, dropWhile_eq_nil_of_all fracS hF]
    rw [if_neg (by simp)]
    simp only [parseExpSuffix, Option.map_some']
    unfold mkFinF64
    simp
  · rw [hform, List.map_cons, hnanL]
    intro h
    injection h with h1 _
    exact digitChar_toLower_ne_n d hd h1
  · rw [hform, List.map_cons, hinfL, hinfyL]
    rintro (h | h) <;> (injection h with h1 _; exact digitChar_toLower_ne_i d hd h1)

theorem rustSign_fst_minus (r : Str) : (rustSign ('-' :: r)).1 = true := rfl

theorem rustSign_snd_minus (r : Str) : (rustSign ('-' :: r)).2 = r := rfl

theorem rustParseF64_shape_neg (d : Nat) (ds' : List Nat) (hds : ∀ x ∈ d :: ds', x < 10)
    (fracS : Str) (hF : ∀ c ∈ fracS, c.isDigit = true) :
    rustParseF64 ('-' :: ((d :: ds').map digitChar ++ '.' :: fracS)) =
      some (.fin (-(Int.ofNat (digitsVal ((d :: ds').map digitChar ++ fracS))))
        ((fracS.length : Int))) := by
  have hd : d < 10 := hds d (by simp)
  have hform : (d :: ds').map digitChar ++ '.' :: fracS =
      digitChar d :: (ds'.map digitChar ++ '.' :: fracS) := by simp
  have hall : ∀ c ∈ (d :: ds').map digitChar, c.isDigit = true := by
    intro c hc
    obtain ⟨x, hx, rfl⟩ := List.mem_map.mp hc
    exact digitChar_isDigit x (hds x hx)
  have hTake : ((d :: ds').map digitChar ++ '.' :: fracS).takeWhile Char.isDigit =
      (d :: ds').map digitChar := takeWhile_append_stop _ '.' _ hall (by decide)
  have hDrop : ((d :: ds').map digitChar ++ '.' :: fracS).dropWhile Char.isDigit =
      '.' :: fracS := dropWhile_append_stop _ '.' _ hall (by decide)
  have hinfL : s2c "inf" = 'i' :: 'n' :: 'f' :: [] := rfl
  have hinfyL : s2c "infinity" = 'i' :: s2c "nfinity" := rfl
  have hnanL : s2c "nan" = 'n' :: 'a' :: 'n' :: [] := rfl
  simp only [rustParseF64]
  rw [rustSign_fst_minus, rustSign_snd_minus]
  rw [hTake, hDrop]
  rw [if_neg, if_neg]
  · show (if List.map digitChar (d :: ds') = [] ∧ List.takeWhile Char.isDigit fracS = [] then
        none
      else
        Option.map (mkFinF64 true (List.map digitChar (d :: ds')) (List.takeWhile Char.isDigit fracS))
          (parseExpSuffix (List.dropWhile Char.isDigit fracS))) =
      some (F64.fin (-(Int.ofNat (digitsVal (List.map digitChar (d :: ds') ++ fracS))))
        (fracS.length : Int))
    rw [takeWhile_eq_self_of_all fracS hF, dropWhile_eq_nil_of_all fracS hF]
    rw [if_neg (by simp)]
    simp only [parseExpSuffix, Option.map_some']
    unfold mkFinF64
    simp
  · rw [hform, List.map_cons, hnanL]
    intro h
    injection h with h1 _
    exact digitChar_toLower_ne_n d hd h1
  · rw [hform, List.map_cons, hinfL, hinfyL]
    rintro (h | h) <;> (injection h with h1 _; exact digitChar_toLower_ne_i d hd h1)

theorem formatF64Prec_exact (m : Int) (p : Nat) (hp : p ≠ 0) :
    formatF64Prec (.fin m (p : Int)) p =
      (if m < 0 then ['-'] else []) ++ natToChars (m.natAbs / 10 ^ p) ++
        '.' :: padLeftWith '0' p (natToChars (m.natAbs % 10 ^ p)) := by
  simp only [formatF64Prec]
  rw [if_pos (le_refl ((p : Nat) : Int))]
  simp [Int.sub_self, hp]

theorem padZero_all_digit (k : Nat) (l : Str) (h : ∀ c ∈ l, c.isDigit = true) :
    ∀ c ∈ padLeftWith '0' k l, c.isDigit = true := by
  intro c hc
  unfold padLeftWith at hc
  rcases List.mem_append.mp hc with h1 | h2
  · rw [List.eq_of_mem_replicate h1]; decide
  · exact h c h2

theorem padZero_not_ws (k : Nat) (l : Str) (h : ∀ c ∈ l, rustIsWhitespace c = false) :
    ∀ c ∈ padLeftWith '0' k l, rustIsWhitespace c = false := by
  intro c hc
  unfold padLeftWith at hc
  rcases List.mem_append.mp hc with h1 | h2
  · rw [List.eq_of_mem_replicate h1]; decide
  · exact h c h2

theorem formatFixed_not_ws (m : Int) (p : Nat) (hp : p ≠ 0) :
    ∀ c ∈ formatF64Prec (.fin m (p : Int)) p, rustIsWhitespace c = false := by
  rw [formatF64Prec_exact m p hp]
  intro c hc
  rcases List.mem_append.mp hc with h1 | h2
  · rcases List.mem_append.mp h1 with h3 | h4
    · by_cases hm : m < 0
      · rw [if_pos hm] at h3
        rw [List.mem_singleton.mp h3]
        decide
      · rw [if_neg hm] at h3
        exact absurd h3 (List.not_mem_nil c)
    · exact natToChars_not_ws _ c h4
  · rcases List.mem_cons.mp h2 with h5 | h6
    · subst h5; decide
    · exact padZero_not_ws p _ (natToChars_not_ws _) c h6

theorem fracS_length (m : Int) (p : Nat) (hp : p ≠ 0) :
    (padLeftWith '0' p (natToChars (m.natAbs % 10 ^ p))).length = p := by
  rw [padLeftWith_length]
  have h1 : m.natAbs % 10 ^ p < 10 ^ p := Nat.mod_lt _ (Nat.pos_pow_of_pos p (by norm_num))
  have := natToChars_length_le (m.natAbs % 10 ^ p) p (by omega) h1
  omega

theorem digitsVal_fixed (m : Int) (p : Nat) (hp : p ≠ 0) :
    digitsVal (natToChars (m.natAbs / 10 ^ p) ++
      padLeftWith '0' p (natToChars (m.natAbs % 10 ^ p))) = m.natAbs := by
  rw [digitsVal_append, fracS_length m p hp, digitsVal_padZero, digitsVal_natToChars,
    digitsVal_natToChars]
  rw [Nat.mul_comm (m.natAbs / 10 ^ p) (10 ^ p)]
  exact Nat.div_add_mod _ _

theorem parse_f64_fixed (m : Int) (p : Nat) (hp : p ≠ 0) (w ln : Nat) :
    parse_f64 (padLeftWith ' ' w (formatF64Prec (.fin m (p : Int)) p)) ln =
      .ok (.fin m (p : Int)) := by
  unfold parse_f64
  rw [filter_strip_pad w _ (formatFixed_not_ws m p hp)]
  rw [formatF64Prec_exact m p hp]
  obtain ⟨ds, hlt, hne, hshape⟩ := natToChars_shape (m.natAbs / 10 ^ p)
  obtain ⟨dI, dsI, rfl⟩ := List.exists_cons_of_ne_nil hne
  have hF : ∀ c ∈ padLeftWith '0' p (natToChars (m.natAbs % 10 ^ p)), c.isDigit = true :=
    padZero_all_digit p _ (natToChars_all_digit _)
  have hlen := fracS_length m p hp
  have hval : digitsVal ((dI :: dsI).map digitChar ++
      padLeftWith '0' p (natToChars (m.natAbs % 10 ^ p))) = m.natAbs := by
    rw [← hshape]
    exact digitsVal_fixed m p hp
  by_cases hm : m < 0
  · rw [if_pos hm, hshape]
    simp only [List.cons_append, List.nil_append]
    simp only [rustParseF64_shape_neg dI dsI hlt _ hF]
    simp only [hval, hlen]
    rw [show -(Int.ofNat m.natAbs) = m by rw [show Int.ofNat m.natAbs = (m.natAbs : Int) from rfl]; omega]
  · rw [if_neg hm, hshape]
    simp only [List.nil_append]
    simp only [rustParseF64_shape dI dsI hlt _ hF]
    simp only [hval, hlen]
    rw [show (Int.ofNat m.natAbs) = m by rw [show Int.ofNat m.natAbs = (m.natAbs : Int) from rfl]; omega]

theorem parse_f64_fixed3 (m : Int) (w ln : Nat) :
    parse_f64 (padLeftWith ' ' w (formatF64Prec (.fin m 3) 3)) ln = .ok (.fin m 3) := by
  have h := parse_f64_fixed m 3 (by norm_num) w ln
  norm_num at h
  exact h

theorem parse_f64_fixed2 (m : Int) (w ln : Nat) :
    parse_f64 (padLeftWith ' ' w (formatF64Prec (.fin m 2) 2)) ln = .ok (.fin m 2) := by
  have h := parse_f64_fixed m 2 (by norm_num) w ln
  norm_num at h
  exact h

theorem formatF64Prec_exact3 (m : Int) :
    formatF64Prec (.fin m 3) 3 = (if m < 0 then ['-'] else []) ++
      (natToChars (m.natAbs / 1000) ++ '.' :: padLeftWith '0' 3 (natToChars (m.natAbs % 1000))) := by
  have h := formatF64Prec_exact m 3 (by norm_num)
  norm_num at h
  exact h

theorem formatF64Prec_exact2 (m : Int) :
    formatF64Prec (.fin m 2) 2 = (if m < 0 then ['-'] else []) ++
      (natToChars (m.natAbs / 100) ++ '.' :: padLeftWith '0' 2 (natToChars (m.natAbs % 100))) := by
  have h := formatF64Prec_exact m 2 (by norm_num)
  norm_num at h
  exact h

theorem formatF64_len3 (m : Int) (h1 : -999999 ≤ m) (h2 : m ≤ 9999999) :
    (formatF64Prec (.fin m 3) 3).length ≤ 8 := by
  rw [formatF64Prec_exact3 m]
  have hfrac : (padLeftWith '0' 3 (natToChars (m.natAbs % 1000))).length = 3 := by
    rw [padLeftWith_length]
    have hlt : m.natAbs % 1000 < 1000 := Nat.mod_lt _ (by norm_num)
    have := natToChars_length_le (m.natAbs % 1000) 3 (by norm_num) (by norm_num; omega)
    omega
  by_cases hm : m < 0
  · rw [if_pos hm]
    have hA : m.natAbs ≤ 999999 := by omega
    have hdiv : m.natAbs / 1000 < 10 ^ 3 := by
      rw [Nat.div_lt_iff_lt_mul (by norm_num)]
      norm_num
      omega
    have hint := natToChars_length_le (m.natAbs / 1000) 3 (by norm_num) hdiv
    simp only [List.length_append, List.length_cons, List.length_singleton, List.length_nil,
      hfrac]
    omega
  · rw [if_neg hm]
    have hA : m.natAbs ≤ 9999999 := by omega
    have hdiv : m.natAbs / 1000 < 10 ^ 4 := by
      rw [Nat.div_lt_iff_lt_mul (by norm_num)]
      norm_num
      omega
    have hint := natToChars_length_le (m.natAbs / 1000) 4 (by norm_num) hdiv
    simp only [List.length_append, List.length_cons, List.length_singleton, List.length_nil,
      hfrac]
    omega

theorem formatF64_len2 (m : Int) (h1 : -9999 ≤ m) (h2 : m ≤ 99999) :
    (formatF64Prec (.fin m 2) 2).length ≤ 6 := by
  rw [formatF64Prec_exact2 m]
  have hfrac : (padLeftWith '0' 2 (natToChars (m.natAbs % 100))).length = 2 := by
    rw [padLeftWith_length]
    have hlt : m.natAbs % 100 < 100 := Nat.mod_lt _ (by norm_num)
    have := natToChars_length_le (m.natAbs % 100) 2 (by norm_num) (by norm_num; omega)
    omega
  by_cases hm : m < 0
  · rw [if_pos hm]
    have hA : m.natAbs ≤ 9999 := by omega
    have hdiv : m.natAbs / 100 < 10 ^ 2 := by
      rw [Nat.div_lt_iff_lt_mul (by norm_num)]
      norm_num
      omega
    have hint := natToChars_length_le (m.natAbs / 100) 2 (by norm_num) hdiv
    simp only [List.length_append, List.length_cons, List.length_singleton, List.length_nil,
      hfrac]
    omega
  · rw [if_neg hm]
    have hA : m.natAbs ≤ 99999 := by omega
    have hdiv : m.natAbs / 100 < 10 ^ 3 := by
      rw [Nat.div_lt_iff_lt_mul (by norm_num)]
      norm_num
      omega
    have hint := natToChars_length_le (m.natAbs / 100) 3 (by norm_num) hdiv
    simp only [List.length_append, List.length_cons, List.length_singleton, List.length_nil,
      hfrac]
    omega

/-! UTF-8 byte-level lemmas. -/

theorem charUtf8Size_pos (c : Char) : 1 ≤ charUtf8Size c := by
  unfold charUtf8Size
  split <;> try omega
  split <;> try omega
  split <;> omega

theorem utf8Len_nil : utf8Len [] = 0 := rfl

theorem utf8Len_cons (c : Char) (t : Str) : utf8Len (c :: t) = charUtf8Size c + utf8Len t := by
  simp [utf8Len]

theorem utf8Len_append (a b : Str) : utf8Len (a ++ b) = utf8Len a + utf8Len b := by
  simp [utf8Len]

theorem length_le_utf8Len (l : Str) : l.length ≤ utf8Len l := by
  induction l with
  | nil => simp [utf8Len]
  | cons c t ih =>
      rw [utf8Len_cons]
      have := charUtf8Size_pos c
      simp only [List.length_cons]
      omega

theorem utf8Len_ascii (l : Str) (h : ∀ c ∈ l, c.toNat < 128) : utf8Len l = l.length := by
  induction l with
  | nil => rfl
  | cons c t ih =>
      rw [utf8Len_cons, ih fun x hx => h x (by simp [hx])]
      have hc : charUtf8Size c = 1 := by
        unfold charUtf8Size
        rw [if_pos (h c (by simp))]
      simp only [hc, List.length_cons]
      omega

theorem byteTakeOpt_exact : ∀ (a b : Str), byteTakeOpt (a ++ b) (utf8Len a) = some a := by
  intro a
  induction a with
  | nil => intro b; cases b <;> rfl
  | cons c t ih =>
      intro b
      have hs := charUtf8Size_pos c
      have hlen : utf8Len (c :: t) = charUtf8Size c + utf8Len t := utf8Len_cons c t
      obtain ⟨k, hk⟩ : ∃ k, utf8Len (c :: t) = k + 1 := ⟨utf8Len (c :: t) - 1, by omega⟩
      rw [List.cons_append, hk, byteTakeOpt]
      rw [if_pos (by omega)]
      rw [show k + 1 - charUtf8Size c = utf8Len t by omega, ih b]
      rfl

theorem byteDropOpt_exact : ∀ (a b : Str), byteDropOpt (a ++ b) (utf8Len a) = some b := by
  intro a
  induction a with
  | nil => intro b; cases b <;> rfl
  | cons c t ih =>
      intro b
      have hs := charUtf8Size_pos c
      have hlen : utf8Len (c :: t) = charUtf8Size c + utf8Len t := utf8Len_cons c t
      obtain ⟨k, hk⟩ : ∃ k, utf8Len (c :: t) = k + 1 := ⟨utf8Len (c :: t) - 1, by omega⟩
      rw [List.cons_append, hk, byteDropOpt]
      rw [if_pos (by omega)]
      rw [show k + 1 - charUtf8Size c = utf8Len t by omega, ih b]

theorem byteSliceOpt_exact (a b c : Str) :
    byteSliceOpt (a ++ (b ++ c)) (utf8Len a) (utf8Len a + utf8Len b) = some b := by
  unfold byteSliceOpt
  rw [if_pos (by omega)]
  rw [byteDropOpt_exact a (b ++ c)]
  show byteTakeOpt (b ++ c) (utf8Len a + utf8Len b - utf8Len a) = some b
  rw [show utf8Len a + utf8Len b - utf8Len a = utf8Len b by omega]
  exact byteTakeOpt_exact b c

/-! Slicing a concatenation. -/

theorem vecSlice_concat (pre mid suf : Str) (a b : Nat)
    (h1 : pre.length = a) (h2 : mid.length = b - a) (hab : a ≤ b) :
    vecSlice (pre ++ (mid ++ suf)) a b = .ok mid := by
  unfold vecSlice
  rw [if_pos ⟨hab, by simp only [List.length_append]; omega⟩]
  rw [List.drop_left' h1, List.take_left' h2]

theorem vecIndex_concat (pre : Str) (c : Char) (suf : Str) (n : Nat) (h : pre.length = n) :
    vecIndex (pre ++ (c :: suf)) n = .ok c := by
  unfold vecIndex
  have : (pre ++ (c :: suf)).get? n = some c := by
    subst h
    induction pre with
    | nil => rfl
    | cons d t ih => simpa using ih
  rw [this]

theorem RRes.bind_ok {α β : Type} (a : α) (f : α → RRes β) :
    (RRes.ok a : RRes α) >>= f = f a := rfl

theorem RRes.pure_eq {α : Type} (a : α) : (pure a : RRes α) = RRes.ok a := rfl

theorem parse_atom_structured (het : Bool) (ln : Nat)
    (tag s5 n4 a1 r3 rt q4 i1 x8 y8 z8 o6 t6 e2 cg : Str) (cc : Char)
    (ltag : tag.length = 6) (ls5 : s5.length = 5) (ln4 : n4.length = 4) (la1 : a1.length = 1)
    (lr3 : r3.length = 3) (lrt : rt.length = 1) (lq4 : q4.length = 4) (li1 : i1.length = 1)
    (lx8 : x8.length = 8) (ly8 : y8.length = 8) (lz8 : z8.length = 8) (lo6 : o6.length = 6)
    (lt6 : t6.length = 6) (le2 : e2.length = 2) (lcg : cg.length = 1)
    (sn : Nat) (hs5 : parse_usize s5 ln = .ok sn)
    (rs : Nat) (hq4 : parse_usize q4 ln = .ok rs)
    (vx : F64) (hx : parse_f64 x8 ln = .ok vx)
    (vy : F64) (hy : parse_f64 y8 ln = .ok vy)
    (vz : F64) (hz : parse_f64 z8 ln = .ok vz)
    (vo : F64) (ho : parse_f64 o6 ln = .ok vo)
    (vt : F64) (ht : parse_f64 t6 ln = .ok vt)
    (L : Str) (hL : L = tag ++ (s5 ++ ([' '] ++ (n4 ++ (a1 ++ ((r3 ++ rt) ++ ([cc] ++ (q4 ++
      (i1 ++ (s2c "   " ++ (x8 ++ (y8 ++ (z8 ++ (o6 ++ (t6 ++ (s2c "          " ++
      (e2 ++ cg))))))))))))))))) :
    parse_atom L ln het =
      .ok (.Atom het sn n4 none r3 [cc] rs none vx vy vz vo vt none e2 0) := by
  have l3 : (s2c "   ").length = 3 := rfl
  have l10 : (s2c "          ").length = 10 := rfl
  have hlen : L.length = 79 := by
    rw [hL]
    simp only [List.length_append, ltag, ls5, ln4, la1, lr3, lrt, lq4, li1, lx8, ly8, lz8,
      lo6, lt6, le2, lcg, l3, l10, List.length_cons, List.length_nil]
  have v6 : vecSlice L 6 11 = .ok s5 := by
    rw [hL]
    exact vecSlice_concat _ _ _ 6 11 ltag (by omega) (by norm_num)
  have v12 : vecSlice L 12 16 = .ok n4 := by
    rw [hL, show tag ++ (s5 ++ ([' '] ++ (n4 ++ (a1 ++ ((r3 ++ rt) ++ ([cc] ++ (q4 ++ (i1 ++
        (s2c "   " ++ (x8 ++ (y8 ++ (z8 ++ (o6 ++ (t6 ++ (s2c "          " ++
        (e2 ++ cg)))))))))))))))) =
      (tag ++ s5 ++ [' ']) ++ (n4 ++ (a1 ++ ((r3 ++ rt) ++ ([cc] ++ (q4 ++ (i1 ++
        (s2c "   " ++ (x8 ++ (y8 ++ (z8 ++ (o6 ++ (t6 ++ (s2c "          " ++
        (e2 ++ cg)))))))))))))) from by simp [List.append_assoc]]
    exact vecSlice_concat _ _ _ 12 16
      (by simp only [List.length_append, ltag, ls5]; rfl) (by omega) (by norm_num)
  have v17 : vecSlice L 17 20 = .ok r3 := by
    rw [hL, show tag ++ (s5 ++ ([' '] ++ (n4 ++ (a1 ++ ((r3 ++ rt) ++ ([cc] ++ (q4 ++ (i1 ++
        (s2c "   " ++ (x8 ++ (y8 ++ (z8 ++ (o6 ++ (t6 ++ (s2c "          " ++
        (e2 ++ cg)))))))))))))))) =
      (tag ++ s5 ++ [' '] ++ n4 ++ a1) ++ (r3 ++ (rt ++ ([cc] ++ (q4 ++ (i1 ++
        (s2c "   " ++ (x8 ++ (y8 ++ (z8 ++ (o6 ++ (t6 ++ (s2c "          " ++
        (e2 ++ cg))))))))))))) from by simp [List.append_assoc]]
    exact vecSlice_concat _ _ _ 17 20
      (by simp only [List.length_append, ltag, ls5, ln4, la1, List.length_cons,
        List.length_nil]) (by omega) (by norm_num)
  have v21 : vecIndex L 21 = .ok cc := by
    rw [hL, show tag ++ (s5 ++ ([' '] ++ (n4 ++ (a1 ++ ((r3 ++ rt) ++ ([cc] ++ (q4 ++ (i1 ++
        (s2c "   " ++ (x8 ++ (y8 ++ (z8 ++ (o6 ++ (t6 ++ (s2c "          " ++
        (e2 ++ cg)))))))))))))))) =
      (tag ++ s5 ++ [' '] ++ n4 ++ a1 ++ r3 ++ rt) ++ (cc :: (q4 ++ (i1 ++
        (s2c "   " ++ (x8 ++ (y8 ++ (z8 ++ (o6 ++ (t6 ++ (s2c "          " ++
        (e2 ++ cg))))))))))) from by simp [List.append_assoc]]
    exact vecIndex_concat _ _ _ 21
      (by simp only [List.length_append, ltag, ls5, ln4, la1, lr3, lrt, List.length_cons,
        List.length_nil])
  have v22 : vecSlice L 22 26 = .ok q4 := by
    rw [hL, show tag ++ (s5 ++ ([' '] ++ (n4 ++ (a1 ++ ((r3 ++ rt) ++ ([cc] ++ (q4 ++ (i1 ++
        (s2c "   " ++ (x8 ++ (y8 ++ (z8 ++ (o6 ++ (t6 ++ (s2c "          " ++
        (e2 ++ cg)))))))))))))))) =
      (tag ++ s5 ++ [' '] ++ n4 ++ a1 ++ r3 ++ rt ++ [cc]) ++ (q4 ++ (i1 ++
        (s2c "   " ++ (x8 ++ (y8 ++ (z8 ++ (o6 ++ (t6 ++ (s2c "          " ++
        (e2 ++ cg)))))))))) from by simp [List.append_assoc]]
    exact vecSlice_concat _ _ _ 22 26
      (by simp only [List.length_append, ltag, ls5, ln4, la1, lr3, lrt, List.length_cons,
        List.length_nil]) (by omega) (by norm_num)
  have v30 : vecSlice L 30 38 = .ok x8 := by
    rw [hL, show tag ++ (s5 ++ ([' '] ++ (n4 ++ (a1 ++ ((r3 ++ rt) ++ ([cc] ++ (q4 ++ (i1 ++
        (s2c "   " ++ (x8 ++ (y8 ++ (z8 ++ (o6 ++ (t6 ++ (s2c "          " ++
        (e2 ++ cg)))))))))))))))) =
      (tag ++ s5 ++ [' '] ++ n4 ++ a1 ++ r3 ++ rt ++ [cc] ++ q4 ++ i1 ++ s2c "   ") ++
        (x8 ++ (y8 ++ (z8 ++ (o6 ++ (t6 ++ (s2c "          " ++
        (e2 ++ cg))))))) from by simp [List.append_assoc]]
    exact vecSlice_concat _ _ _ 30 38
      (by simp only [List.length_append, ltag, ls5, ln4, la1, lr3, lrt, lq4, li1, l3,
        List.length_cons, List.length_nil]) (by omega) (by norm_num)
  have v38 : vecSlice L 38 46 = .ok y8 := by
    rw [hL, show tag ++ (s5 ++ ([' '] ++ (n4 ++ (a1 ++ ((r3 ++ rt) ++ ([cc] ++ (q4 ++ (i1 ++
        (s2c "   " ++ (x8 ++ (y8 ++ (z8 ++ (o6 ++ (t6 ++ (s2c "          " ++
        (e2 ++ cg)))))))))))))))) =
      (tag ++ s5 ++ [' '] ++ n4 ++ a1 ++ r3 ++ rt ++ [cc] ++ q4 ++ i1 ++ s2c "   " ++ x8) ++
        (y8 ++ (z8 ++ (o6 ++ (t6 ++ (s2c "          " ++
        (e2 ++ cg)))))) from by simp [List.append_assoc]]
    exact vecSlice_concat _ _ _ 38 46
      (by simp only [List.length_append, ltag, ls5, ln4, la1, lr3, lrt, lq4, li1, lx8, l3,
        List.length_cons, List.length_nil]) (by omega) (by norm_num)
  have v46 : vecSlice L 46 54 = .ok z8 := by
    rw [hL, show tag ++ (s5 ++ ([' '] ++ (n4 ++ (a1 ++ ((r3 ++ rt) ++ ([cc] ++ (q4 ++ (i1 ++
        (s2c "   " ++ (x8 ++ (y8 ++ (z8 ++ (o6 ++ (t6 ++ (s2c "          " ++
        (e2 ++ cg)))))))))))))))) =
      (tag ++ s5 ++ [' '] ++ n4 ++ a1 ++ r3 ++ rt ++ [cc] ++ q4 ++ i1 ++ s2c "   " ++ x8 ++
        y8) ++ (z8 ++ (o6 ++ (t6 ++ (s2c "          " ++
        (e2 ++ cg))))) from by simp [List.append_assoc]]
    exact vecSlice_concat _ _ _ 46 54
      (by simp only [List.length_append, ltag, ls5, ln4, la1, lr3, lrt, lq4, li1, lx8, ly8, l3,
        List.length_cons, List.length_nil]) (by omega) (by norm_num)
  have v54 : vecSlice L 54 60 = .ok o6 := by
    rw [hL, show tag ++ (s5 ++ ([' '] ++ (n4 ++ (a1 ++ ((r3 ++ rt) ++ ([cc] ++ (q4 ++ (i1 ++
        (s2c "   " ++ (x8 ++ (y8 ++ (z8 ++ (o6 ++ (t6 ++ (s2c "          " ++
        (e2 ++ cg)))))))))))))))) =
      (tag ++ s5 ++ [' '] ++ n4 ++ a1 ++ r3 ++ rt ++ [cc] ++ q4 ++ i1 ++ s2c "   " ++ x8 ++
        y8 ++ z8) ++ (o6 ++ (t6 ++ (s2c "          " ++
        (e2 ++ cg)))) from by simp [List.append_assoc]]
    exact vecSlice_concat _ _ _ 54 60
      (by simp only [List.length_append, ltag, ls5, ln4, la1, lr3, lrt, lq4, li1, lx8, ly8,
        lz8, l3, List.length_cons, List.length_nil]) (by omega) (by norm_num)
  have v60 : vecSlice L 60 66 = .ok t6 := by
    rw [hL, show tag ++ (s5 ++ ([' '] ++ (n4 ++ (a1 ++ ((r3 ++ rt) ++ ([cc] ++ (q4 ++ (i1 ++
        (s2c "   " ++ (x8 ++ (y8 ++ (z8 ++ (o6 ++ (t6 ++ (s2c "          " ++
        (e2 ++ cg)))))))))))))))) =
      (tag ++ s5 ++ [' '] ++ n4 ++ a1 ++ r3 ++ rt ++ [cc] ++ q4 ++ i1 ++ s2c "   " ++ x8 ++
        y8 ++ z8 ++ o6) ++ (t6 ++ (s2c "          " ++
        (e2 ++ cg))) from by simp [List.append_assoc]]
    exact vecSlice_concat _ _ _ 60 66
      (by simp only [List.length_append, ltag, ls5, ln4, la1, lr3, lrt, lq4, li1, lx8, ly8,
        lz8, lo6, l3, List.length_cons, List.length_nil]) (by omega) (by norm_num)
  have v76 : vecSlice L 76 78 = .ok e2 := by
    rw [hL, show tag ++ (s5 ++ ([' '] ++ (n4 ++ (a1 ++ ((r3 ++ rt) ++ ([cc] ++ (q4 ++ (i1 ++
        (s2c "   " ++ (x8 ++ (y8 ++ (z8 ++ (o6 ++ (t6 ++ (s2c "          " ++
        (e2 ++ cg)))))))))))))))) =
      (tag ++ s5 ++ [' '] ++ n4 ++ a1 ++ r3 ++ rt ++ [cc] ++ q4 ++ i1 ++ s2c "   " ++ x8 ++
        y8 ++ z8 ++ o6 ++ t6 ++ s2c "          ") ++ (e2 ++ cg) from by
          simp [List.append_assoc]]
    exact vecSlice_concat _ _ _ 76 78
      (by simp only [List.length_append, ltag, ls5, ln4, la1, lr3, lrt, lq4, li1, lx8, ly8,
        lz8, lo6, lt6, l3, l10, List.length_cons, List.length_nil]) (by omega) (by norm_num)
  simp only [parse_atom, hlen]
  norm_num
  simp only [v6, v12, v17, v21, v22, v30, v38, v46, v54, v60, v76, RRes.bind_ok, hs5, hq4,
    hx, hy, hz, ho, ht, RRes.pure_eq]

/-! Dispatch of `parse_line` on written atom lines. -/

theorem parse_line_atomTag (rest : Str) (ln : Nat) (h : 0 < utf8Len rest) :
    parse_line (s2c "ATOM  " ++ rest) ln = parse_atom (s2c "ATOM  " ++ rest) ln false := by
  have h6 : utf8Len (s2c "ATOM  ") = 6 := rfl
  have hgt : 6 < utf8Len (s2c "ATOM  " ++ rest) := by
    rw [utf8Len_append, h6]
    omega
  have htake : byteTakeOpt (s2c "ATOM  " ++ rest) 6 = some (s2c "ATOM  ") := by
    have := byteTakeOpt_exact (s2c "ATOM  ") rest
    rwa [h6] at this
  unfold parse_line
  rw [if_pos hgt, htake]
  norm_num [show s2c "ATOM  " ≠ s2c "HEADER" from by decide,
    show s2c "ATOM  " ≠ s2c "REMARK" from by decide,
    show s2c "ATOM  " ≠ s2c "HETATM" from by decide]

theorem parse_line_hetatmTag (rest : Str) (ln : Nat) (h : 0 < utf8Len rest) :
    parse_line (s2c "HETATM" ++ rest) ln = parse_atom (s2c "HETATM" ++ rest) ln true := by
  have h6 : utf8Len (s2c "HETATM") = 6 := rfl
  have hgt : 6 < utf8Len (s2c "HETATM" ++ rest) := by
    rw [utf8Len_append, h6]
    omega
  have htake : byteTakeOpt (s2c "HETATM" ++ rest) 6 = some (s2c "HETATM") := by
    have := byteTakeOpt_exact (s2c "HETATM") rest
    rwa [h6] at this
  unfold parse_line
  rw [if_pos hgt, htake]
  norm_num [show s2c "HETATM" ≠ s2c "HEADER" from by decide,
    show s2c "HETATM" ≠ s2c "REMARK" from by decide]

/-! Small facts used to rebuild the atom fields. -/

theorem intToChars_digit_len (ch : Int) (h0 : 0 ≤ ch) (h9 : ch ≤ 9) :
    (intToChars ch).length = 1 := by
  unfold intToChars
  rw [if_neg (by omega)]
  have hlt : ch.natAbs < 10 ^ 1 := by
    have : ch.natAbs ≤ 9 := by omega
    norm_num
    omega
  have h1 := natToChars_length_le ch.natAbs 1 (by norm_num) hlt
  have h2 : natToChars ch.natAbs ≠ [] := natToChars_ne_nil _
  have h3 : (natToChars ch.natAbs).length ≠ 0 := by
    intro he
    exact h2 (List.length_eq_zero.mp he)
  omega

theorem check_char_space : check_char ' ' = true := by decide

theorem valid_replicate_space (k : Nat) : (List.replicate k ' ').all check_char = true :=
  List.all_eq_true.mpr fun c hc => by rw [List.eq_of_mem_replicate hc]; decide

theorem valid_identifier_center (w : Nat) (l : Str) (h : valid_identifier l = true) :
    valid_identifier (centerPad w l) = true := by
  show (centerPad w l).all check_char = true
  apply List.all_eq_true.mpr
  intro c hc
  unfold centerPad at hc
  rcases List.mem_append.mp hc with h1 | h2
  · rcases List.mem_append.mp h1 with h3 | h4
    · rw [List.eq_of_mem_replicate h3]; decide
    · exact List.all_eq_true.mp h c h4
  · rw [List.eq_of_mem_replicate h2]; decide

theorem valid_identifier_padLeft (w : Nat) (l : Str) (h : valid_identifier l = true) :
    valid_identifier (padLeftWith ' ' w l) = true := by
  show (padLeftWith ' ' w l).all check_char = true
  apply List.all_eq_true.mpr
  intro c hc
  unfold padLeftWith at hc
  rcases List.mem_append.mp hc with h1 | h2
  · rw [List.eq_of_mem_replicate h1]; decide
  · exact List.all_eq_true.mp h c h2

theorem trim_center (w : Nat) (l : Str) (h : trimChars l = l) :
    trimChars (centerPad w l) = l := by
  unfold centerPad
  rw [List.append_assoc]
  exact trim_pad _ l _ h (replicate_all_ws _) (replicate_all_ws _)

theorem trim_padLeft_space (w : Nat) (l : Str) (h : trimChars l = l) :
    trimChars (padLeftWith ' ' w l) = l := by
  unfold padLeftWith
  have := trim_pad (List.replicate (w - l.length) ' ') l [] h (replicate_all_ws _)
    (by intro c hc; exact absurd hc (List.not_mem_nil c))
  simpa using this

theorem trim_padRight_space (l sp : Str) (h : trimChars l = l)
    (hsp : ∀ c ∈ sp, rustIsWhitespace c = true) : trimChars (l ++ sp) = l := by
  have := trim_pad [] l sp h (by intro c hc; exact absurd hc (List.not_mem_nil c)) hsp
  simpa using this

theorem padRight4_split (rn : Str) (h : rn.length ≤ 3) :
    padRightWith ' ' 4 rn = (rn ++ List.replicate (3 - rn.length) ' ') ++ [' '] := by
  unfold padRightWith
  rw [List.append_assoc]
  congr 1
  rw [show 4 - rn.length = (3 - rn.length) + 1 by omega, List.replicate_succ' _ ' ']

theorem f64Thousandths_elim (v : F64) (lo hi : Int) (h : f64Thousandths v lo hi = true) :
    ∃ m, v = .fin m 3 ∧ lo ≤ m ∧ m ≤ hi := by
  cases v with
  | fin man exp =>
      simp only [f64Thousandths, Bool.and_eq_true, beq_iff_eq, decide_eq_true_eq] at h
      exact ⟨man, by rw [h.1.1], h.1.2, h.2⟩
  | inf => simp [f64Thousandths] at h
  | neginf => simp [f64Thousandths] at h
  | nan => simp [f64Thousandths] at h

theorem f64Hundredths_elim (v : F64) (lo hi : Int) (h : f64Hundredths v lo hi = true) :
    ∃ m, v = .fin m 2 ∧ lo ≤ m ∧ m ≤ hi := by
  cases v with
  | fin man exp =>
      simp only [f64Hundredths, Bool.and_eq_true, beq_iff_eq, decide_eq_true_eq] at h
      exact ⟨man, by rw [h.1.1], h.1.2, h.2⟩
  | inf => simp [f64Hundredths] at h
  | neginf => simp [f64Hundredths] at h
  | nan => simp [f64Hundredths] at h

theorem foldLine_atom (pdb : PDB) (a : Atom) (hwf : wfAtomForSave a = true) (ln : Nat) :
    foldLine pdb (write_line (atomLine a)) ln = .ok (PDB.add_atom pdb (readBackAtom a)) := by
  obtain ⟨het, sn, nm, alt, rn, ci, rs, ic, x, y, z, oc, tf, sg, el, ch⟩ := a
  simp only [wfAtomForSave, Bool.and_eq_true, decide_eq_true_eq, beq_iff_eq, and_assoc] at hwf
  obtain ⟨hsn, hnmv, hnmt, hnmu, hnml, halt, hrnv, hrnt, hrnu, hrnl, hciv, hcit, hciu, hcil,
    hrs, hic, hxw, hyw, hzw, how, htw, helv, helt, helu, hell, hch0, hch9⟩ := hwf
  subst halt
  subst hic
  obtain ⟨mx, rfl, hx1, hx2⟩ := f64Thousandths_elim _ _ _ hxw
  obtain ⟨my, rfl, hy1, hy2⟩ := f64Thousandths_elim _ _ _ hyw
  obtain ⟨mz, rfl, hz1, hz2⟩ := f64Thousandths_elim _ _ _ hzw
  obtain ⟨mo, rfl, ho1, ho2⟩ := f64Hundredths_elim _ _ _ how
  obtain ⟨mt, rfl, ht1, ht2⟩ := f64Hundredths_elim _ _ _ htw
  have ls5 : (padLeftWith ' ' 5 (natToChars sn)).length = 5 := by
    rw [padLeftWith_length]
    have := natToChars_length_le sn 5 (by norm_num) (by norm_num; omega)
    omega
  have ln4 : (centerPad 4 nm).length = 4 := by
    rw [centerPad_length]
    omega
  have lr3 : (rn ++ List.replicate (3 - rn.length) ' ').length = 3 := by
    simp only [List.length_append, List.length_replicate]
    omega
  have lq4 : (padLeftWith ' ' 4 (natToChars rs)).length = 4 := by
    rw [padLeftWith_length]
    have := natToChars_length_le rs 4 (by norm_num) (by norm_num; omega)
    omega
  have lx8 : (padLeftWith ' ' 8 (formatF64Prec (.fin mx 3) 3)).length = 8 := by
    rw [padLeftWith_length]
    have := formatF64_len3 mx hx1 hx2
    omega
  have ly8 : (padLeftWith ' ' 8 (formatF64Prec (.fin my 3) 3)).length = 8 := by
    rw [padLeftWith_length]
    have := formatF64_len3 my hy1 hy2
    omega
  have lz8 : (padLeftWith ' ' 8 (formatF64Prec (.fin mz 3) 3)).length = 8 := by
    rw [padLeftWith_length]
    have := formatF64_len3 mz hz1 hz2
    omega
  have lo6 : (padLeftWith ' ' 6 (formatF64Prec (.fin mo 2) 2)).length = 6 := by
    rw [padLeftWith_length]
    have := formatF64_len2 mo ho1 ho2
    omega
  have lt6 : (padLeftWith ' ' 6 (formatF64Prec (.fin mt 2) 2)).length = 6 := by
    rw [padLeftWith_length]
    have := formatF64_len2 mt ht1 ht2
    omega
  have le2 : (padLeftWith ' ' 2 el).length = 2 := by
    rw [padLeftWith_length]
    omega
  have lcg : (intToChars ch).length = 1 := intToChars_digit_len ch hch0 hch9
  obtain ⟨cc, hccEq, hccBack⟩ : ∃ cc : Char, padRightWith ' ' 1 ci = [cc] ∧
      asciiUpper (trimChars [cc]) = ci := by
    cases ci with
    | nil => exact ⟨' ', rfl, by decide⟩
    | cons c0 ctail =>
        have hct : ctail = [] := by
          simp only [List.length_cons] at hcil
          exact List.length_eq_zero.mp (by omega)
        subst hct
        refine ⟨c0, by simp [padRightWith], ?_⟩
        rw [hcit, hciu]
  have hsp1 : padRightWith ' ' 1 (s2c " ") = [' '] := rfl
  have hLine : atomLine ⟨het, sn, nm, none, rn, ci, rs, none, .fin mx 3, .fin my 3, .fin mz 3,
      .fin mo 2, .fin mt 2, sg, el, ch⟩ =
      (if het then s2c "HETATM" else s2c "ATOM  ") ++ (padLeftWith ' ' 5 (natToChars sn) ++
        ([' '] ++ (centerPad 4 nm ++ ([' '] ++ (((rn ++ List.replicate (3 - rn.length) ' ') ++
        [' ']) ++ ([cc] ++ (padLeftWith ' ' 4 (natToChars rs) ++ ([' '] ++ (s2c "   " ++
        (padLeftWith ' ' 8 (formatF64Prec (.fin mx 3) 3) ++
        (padLeftWith ' ' 8 (formatF64Prec (.fin my 3) 3) ++
        (padLeftWith ' ' 8 (formatF64Prec (.fin mz 3) 3) ++
        (padLeftWith ' ' 6 (formatF64Prec (.fin mo 2) 2) ++
        (padLeftWith ' ' 6 (formatF64Prec (.fin mt 2) 2) ++
        (s2c "          " ++ (padLeftWith ' ' 2 el ++
        intToChars ch)))))))))))))))) := by
    simp only [atomLine, Option.getD_none, hsp1, hccEq, padRight4_split rn hrnl,
      List.append_assoc]
  have hPA : parse_atom (atomLine ⟨het, sn, nm, none, rn, ci, rs, none, .fin mx 3, .fin my 3,
      .fin mz 3, .fin mo 2, .fin mt 2, sg, el, ch⟩) ln het =
      .ok (.Atom het sn (centerPad 4 nm) none (rn ++ List.replicate (3 - rn.length) ' ')
        [cc] rs none (.fin mx 3) (.fin my 3) (.fin mz 3) (.fin mo 2) (.fin mt 2) none
        (padLeftWith ' ' 2 el) 0) :=
    parse_atom_structured het ln _ _ _ [' '] _ [' '] _ [' '] _ _ _ _ _ _ _ cc
      (by cases het <;> rfl) ls5 ln4 rfl lr3 rfl lq4 rfl lx8 ly8 lz8 lo6 lt6 le2 lcg
      sn (parse_usize_padded sn 5 ln) rs (parse_usize_padded rs 4 ln)
      _ (parse_f64_fixed3 mx 8 ln) _ (parse_f64_fixed3 my 8 ln) _ (parse_f64_fixed3 mz 8 ln)
      _ (parse_f64_fixed2 mo 6 ln) _ (parse_f64_fixed2 mt 6 ln) _ hLine
  have hlen79 : (atomLine ⟨het, sn, nm, none, rn, ci, rs, none, .fin mx 3, .fin my 3, .fin mz 3, .fin mo 2, .fin mt 2, sg, el, ch⟩).length = 79 := by
    rw [hLine]
    simp only [List.length_append, ls5, ln4, lr3, lq4, lx8, ly8, lz8, lo6, lt6, le2, lcg,
      List.length_cons, List.length_nil,
      show (if het then s2c "HETATM" else s2c "ATOM  ").length = 6 from by cases het <;> rfl,
      show (s2c "   ").length = 3 from rfl, show (s2c "          ").length = 10 from rfl]
  have hWL : write_line (atomLine ⟨het, sn, nm, none, rn, ci, rs, none, .fin mx 3, .fin my 3, .fin mz 3, .fin mo 2, .fin mt 2, sg, el, ch⟩) = atomLine ⟨het, sn, nm, none, rn, ci, rs, none, .fin mx 3, .fin my 3, .fin mz 3, .fin mo 2, .fin mt 2, sg, el, ch⟩ := by
    unfold write_line
    rw [if_neg]
    have h1 := length_le_utf8Len (atomLine ⟨het, sn, nm, none, rn, ci, rs, none, .fin mx 3, .fin my 3, .fin mz 3, .fin mo 2, .fin mt 2, sg, el, ch⟩)
    omega
  have hPL : parse_line (atomLine ⟨het, sn, nm, none, rn, ci, rs, none, .fin mx 3, .fin my 3, .fin mz 3, .fin mo 2, .fin mt 2, sg, el, ch⟩) ln = parse_atom (atomLine ⟨het, sn, nm, none, rn, ci, rs, none, .fin mx 3, .fin my 3, .fin mz 3, .fin mo 2, .fin mt 2, sg, el, ch⟩) ln het := by
    cases het with
    | false =>
        rw [hLine]
        exact parse_line_atomTag _ ln (lt_of_lt_of_le
          (by simp only [List.length_append, ls5]; omega) (length_le_utf8Len _))
    | true =>
        rw [hLine]
        exact parse_line_hetatmTag _ ln (lt_of_lt_of_le
          (by simp only [List.length_append, ls5]; omega) (length_le_utf8Len _))
  have hnew : Atom.new het sn (centerPad 4 nm) (rn ++ List.replicate (3 - rn.length) ' ')
      [cc] rs (.fin mx 3) (.fin my 3) (.fin mz 3) (.fin mo 2) (.fin mt 2)
      (padLeftWith ' ' 2 el) 0 =
      some ⟨het, sn, nm, none, rn, ci, rs, none, .fin mx 3, .fin my 3, .fin mz 3, .fin mo 2,
        .fin mt 2, none, el, 0⟩ := by
    unfold Atom.new
    rw [if_pos]
    · rw [trim_center 4 nm hnmt, hnmu, trim_padRight_space rn _ hrnt (replicate_all_ws _),
        hrnu, trim_padLeft_space 2 el helt, helu, hccBack]
    · simp [valid_identifier_center 4 nm hnmv, valid_identifier_padLeft 2 el helv,
        F64.isFinite]
  rw [hWL]
  simp only [foldLine, hPL, hPA, hnew]
  rfl

/-! Header and remark lines. -/

theorem check_char_lt128 (c : Char) (h : check_char c = true) : c.toNat < 128 := by
  simp only [check_char, decide_eq_true_eq] at h
  omega

theorem valid_ascii (l : Str) (h : valid_identifier l = true) : ∀ c ∈ l, c.toNat < 128 := by
  intro c hc
  exact check_char_lt128 c (List.all_eq_true.mp h c hc)

theorem write_line_eq (l : Str) : write_line l = l ++ List.replicate (70 - utf8Len l) ' ' := by
  unfold write_line
  split
  · rfl
  · next hge =>
      rw [show 70 - utf8Len l = 0 by omega]
      simp

theorem parse_line_headerTag (rest : Str) (ln : Nat) (h : 0 < utf8Len rest) :
    parse_line (s2c "HEADER" ++ rest) ln = parse_header (s2c "HEADER" ++ rest) ln := by
  have h6 : utf8Len (s2c "HEADER") = 6 := rfl
  have hgt : 6 < utf8Len (s2c "HEADER" ++ rest) := by
    rw [utf8Len_append, h6]
    omega
  have htake : byteTakeOpt (s2c "HEADER" ++ rest) 6 = some (s2c "HEADER") := by
    have := byteTakeOpt_exact (s2c "HEADER") rest
    rwa [h6] at this
  unfold parse_line
  rw [if_pos hgt, htake]
  norm_num

theorem parse_line_remarkTag (rest : Str) (ln : Nat) (h : 0 < utf8Len rest) :
    parse_line (s2c "REMARK" ++ rest) ln = parse_remarks (s2c "REMARK" ++ rest) ln := by
  have h6 : utf8Len (s2c "REMARK") = 6 := rfl
  have hgt : 6 < utf8Len (s2c "REMARK" ++ rest) := by
    rw [utf8Len_append, h6]
    omega
  have htake : byteTakeOpt (s2c "REMARK" ++ rest) 6 = some (s2c "REMARK") := by
    have := byteTakeOpt_exact (s2c "REMARK") rest
    rwa [h6] at this
  unfold parse_line
  rw [if_pos hgt, htake]
  norm_num [show s2c "REMARK" ≠ s2c "HEADER" from by decide]

theorem foldLine_header (pdb : PDB) (idnt : Str) (ln : Nat)
    (hv : valid_identifier idnt = true) (ht : trimChars idnt = idnt)
    (hu : asciiUpper idnt = idnt) (hne : idnt ≠ []) (hlen : idnt.length ≤ 4) :
    foldLine pdb (write_line (s2c "HEADER" ++ List.replicate 56 ' ' ++ idnt)) ln =
      .ok { pdb with identifier := some idnt } := by
  have hP62 : utf8Len (s2c "HEADER" ++ List.replicate 56 ' ') = 62 := by
    rw [utf8Len_append]
    rfl
  have hMID : utf8Len (idnt ++ List.replicate (4 - idnt.length) ' ') = 4 := by
    rw [utf8Len_ascii]
    · simp only [List.length_append, List.length_replicate]
      omega
    · intro c hc
      rcases List.mem_append.mp hc with h3 | h4
      · exact valid_ascii idnt hv c h3
      · rw [List.eq_of_mem_replicate h4]; decide
  have hIL : utf8Len idnt = idnt.length := utf8Len_ascii idnt (valid_ascii idnt hv)
  have hulen : utf8Len (s2c "HEADER" ++ List.replicate 56 ' ' ++ idnt) =
      62 + idnt.length := by
    rw [utf8Len_append, utf8Len_append, hIL,
      show utf8Len (s2c "HEADER") = 6 from rfl,
      show utf8Len (List.replicate 56 ' ') = 56 from rfl]
  rw [write_line_eq, hulen]
  have hpadsplit : List.replicate (70 - (62 + idnt.length)) ' ' =
      List.replicate (4 - idnt.length) ' ' ++ List.replicate 4 ' ' := by
    rw [show 70 - (62 + idnt.length) = (4 - idnt.length) + 4 by omega, List.replicate_add]
  rw [hpadsplit]
  have hL1 : s2c "HEADER" ++ List.replicate 56 ' ' ++ idnt ++
      (List.replicate (4 - idnt.length) ' ' ++ List.replicate 4 ' ') =
      s2c "HEADER" ++ (List.replicate 56 ' ' ++
        ((idnt ++ List.replicate (4 - idnt.length) ' ') ++ List.replicate 4 ' ')) := by
    simp only [List.append_assoc]
  rw [hL1]
  have hRlen : utf8Len (List.replicate 56 ' ' ++
      ((idnt ++ List.replicate (4 - idnt.length) ' ') ++ List.replicate 4 ' ')) = 64 := by
    rw [utf8Len_append, utf8Len_append, hMID,
      show utf8Len (List.replicate 56 ' ') = 56 from rfl,
      show utf8Len (List.replicate 4 ' ') = 4 from rfl]
  have hslice : byteSliceOpt (s2c "HEADER" ++ (List.replicate 56 ' ' ++
      ((idnt ++ List.replicate (4 - idnt.length) ' ') ++ List.replicate 4 ' '))) 62 66 =
      some (idnt ++ List.replicate (4 - idnt.length) ' ') := by
    rw [show s2c "HEADER" ++ (List.replicate 56 ' ' ++
        ((idnt ++ List.replicate (4 - idnt.length) ' ') ++ List.replicate 4 ' ')) =
        (s2c "HEADER" ++ List.replicate 56 ' ') ++
          ((idnt ++ List.replicate (4 - idnt.length) ' ') ++ List.replicate 4 ' ') from by
        simp only [List.append_assoc]]
    have hbs := byteSliceOpt_exact (s2c "HEADER" ++ List.replicate 56 ' ')
      (idnt ++ List.replicate (4 - idnt.length) ' ') (List.replicate 4 ' ')
    rw [hP62, hMID] at hbs
    rw [show (62 : Nat) + 4 = 66 from rfl] at hbs
    exact hbs
  have hPH : ∃ f1 f2, parse_header (s2c "HEADER" ++ (List.replicate 56 ' ' ++
      ((idnt ++ List.replicate (4 - idnt.length) ' ') ++ List.replicate 4 ' '))) ln =
      .ok (.Header f1 f2 (idnt ++ List.replicate (4 - idnt.length) ' ')) := by
    refine ⟨(byteSliceOpt (s2c "HEADER" ++ (List.replicate 56 ' ' ++
        ((idnt ++ List.replicate (4 - idnt.length) ' ') ++ List.replicate 4 ' '))) 10 50).getD [],
      (byteSliceOpt (s2c "HEADER" ++ (List.replicate 56 ' ' ++
        ((idnt ++ List.replicate (4 - idnt.length) ' ') ++ List.replicate 4 ' '))) 50 59).getD [],
      ?_⟩
    unfold parse_header
    rw [if_neg (by
      rw [utf8Len_append, hRlen, show utf8Len (s2c "HEADER") = 6 from rfl]
      norm_num)]
    rw [hslice]
    rfl
  obtain ⟨f1, f2, hPH⟩ := hPH
  have hprep : prepare_identifier (idnt ++ List.replicate (4 - idnt.length) ' ') =
      some idnt := by
    unfold prepare_identifier
    have htrim : trimChars (idnt ++ List.replicate (4 - idnt.length) ' ') = idnt :=
      trim_padRight_space idnt _ ht (replicate_all_ws _)
    rw [if_pos]
    · rw [htrim, hu]
    · constructor
      · show (idnt ++ List.replicate (4 - idnt.length) ' ').all check_char = true
        apply List.all_eq_true.mpr
        intro c hc
        rcases List.mem_append.mp hc with h3 | h4
        · exact List.all_eq_true.mp hv c h3
        · rw [List.eq_of_mem_replicate h4]; decide
      · rw [htrim]
        exact hne
  unfold foldLine
  rw [parse_line_headerTag _ ln (by rw [hRlen]; norm_num)]
  simp only [hPH]
  show (match PDB.set_identifier pdb (idnt ++ List.replicate (4 - idnt.length) ' ') with
    | (.ok _, p2) => RRes.ok p2
    | (.error e, _) => RRes.err (.pdb e)) = _
  unfold PDB.set_identifier
  simp only [hprep]
  rw [ht, hu]

theorem utf8Len_replicate_space (k : Nat) : utf8Len (List.replicate k ' ') = k := by
  rw [utf8Len_ascii]
  · simp
  · intro c hc
    rw [List.eq_of_mem_replicate hc]
    decide

theorem natToChars_valid (n : Nat) : valid_identifier (natToChars n) = true := by
  obtain ⟨ds, hlt, _, hshape⟩ := natToChars_shape n
  rw [hshape]
  show (ds.map digitChar).all check_char = true
  apply List.all_eq_true.mpr
  intro c hc
  obtain ⟨d, hd, rfl⟩ := List.mem_map.mp hc
  exact digitChar_check d (hlt d hd)

theorem remark_type_le (t : Nat) (h : REMARK_TYPES.contains t = true) : t ≤ 999 := by
  have hm : t ∈ REMARK_TYPES := List.mem_of_elem_eq_true h
  simp only [REMARK_TYPES, List.mem_cons, List.not_mem_nil, or_false] at hm
  omega

theorem foldLine_remark (pdb : PDB) (t : Nat) (txt : Str) (ln : Nat)
    (hty : REMARK_TYPES.contains t = true) (hlen : utf8Len txt ≤ 69)
    (htr : trimEndChars txt = txt) :
    foldLine pdb (write_line (s2c "REMARK " ++ padLeftWith ' ' 3 (natToChars t) ++ [' '] ++
      txt)) ln = .ok { pdb with remarks := pdb.remarks ++ [(t, txt)] } := by
  have ht999 := remark_type_le t hty
  have lT3 : (padLeftWith ' ' 3 (natToChars t)).length = 3 := by
    rw [padLeftWith_length]
    have := natToChars_length_le t 3 (by norm_num) (by norm_num; omega)
    omega
  have hT3v : valid_identifier (padLeftWith ' ' 3 (natToChars t)) = true :=
    valid_identifier_padLeft 3 _ (natToChars_valid t)
  have hT3u : utf8Len (padLeftWith ' ' 3 (natToChars t)) = 3 := by
    rw [utf8Len_ascii _ (valid_ascii _ hT3v), lT3]
  have hP7 : (s2c "REMARK ").length = 7 := rfl
  have hP7u : utf8Len (s2c "REMARK ") = 7 := rfl
  have hP11u : utf8Len (s2c "REMARK " ++ padLeftWith ' ' 3 (natToChars t) ++ [' ']) = 11 := by
    rw [utf8Len_append, utf8Len_append, hP7u, hT3u]
    rfl
  have hbaseu : utf8Len (s2c "REMARK " ++ padLeftWith ' ' 3 (natToChars t) ++ [' '] ++ txt) =
      11 + utf8Len txt := by
    rw [utf8Len_append, hP11u]
  rw [write_line_eq, hbaseu]
  have hLu : utf8Len (s2c "REMARK " ++ padLeftWith ' ' 3 (natToChars t) ++ [' '] ++ txt ++
      List.replicate (70 - (11 + utf8Len txt)) ' ') = 11 + utf8Len txt +
        (70 - (11 + utf8Len txt)) := by
    rw [utf8Len_append, hbaseu, utf8Len_replicate_space]
  have hPR : parse_remarks (s2c "REMARK " ++ padLeftWith ' ' 3 (natToChars t) ++ [' '] ++
      txt ++ List.replicate (70 - (11 + utf8Len txt)) ' ') ln = .ok (.Remark t txt) := by
    have hv7 : vecSlice (s2c "REMARK " ++ padLeftWith ' ' 3 (natToChars t) ++ [' '] ++ txt ++
        List.replicate (70 - (11 + utf8Len txt)) ' ') 7 10 =
        .ok (padLeftWith ' ' 3 (natToChars t)) := by
      rw [show s2c "REMARK " ++ padLeftWith ' ' 3 (natToChars t) ++ [' '] ++ txt ++
          List.replicate (70 - (11 + utf8Len txt)) ' ' =
          s2c "REMARK " ++ (padLeftWith ' ' 3 (natToChars t) ++ ([' '] ++ (txt ++
          List.replicate (70 - (11 + utf8Len txt)) ' '))) from by
        simp only [List.append_assoc]]
      exact vecSlice_concat _ _ _ 7 10 hP7 (by omega) (by norm_num)
    have hdrop : byteDropOpt (s2c "REMARK " ++ padLeftWith ' ' 3 (natToChars t) ++ [' '] ++
        txt ++ List.replicate (70 - (11 + utf8Len txt)) ' ') 11 =
        some (txt ++ List.replicate (70 - (11 + utf8Len txt)) ' ') := by
      rw [show s2c "REMARK " ++ padLeftWith ' ' 3 (natToChars t) ++ [' '] ++ txt ++
          List.replicate (70 - (11 + utf8Len txt)) ' ' =
          (s2c "REMARK " ++ padLeftWith ' ' 3 (natToChars t) ++ [' ']) ++ (txt ++
          List.replicate (70 - (11 + utf8Len txt)) ' ') from by
        simp only [List.append_assoc]]
      have := byteDropOpt_exact (s2c "REMARK " ++ padLeftWith ' ' 3 (natToChars t) ++ [' '])
        (txt ++ List.replicate (70 - (11 + utf8Len txt)) ' ')
      rwa [hP11u] at this
    unfold parse_remarks
    rw [if_neg (by rw [hLu]; omega)]
    simp only [hv7, RRes.bind_ok, parse_usize_padded t 3 ln, hdrop, Option.getD_some]
    rw [trimEnd_append_ws txt _ (replicate_all_ws _), htr]
  have hAR : PDB.add_remarks pdb t txt = (.ok (), { pdb with
      remarks := pdb.remarks ++ [(t, txt)] }) := by
    unfold PDB.add_remarks
    rw [if_neg (by rw [hty]; simp), if_neg (by omega)]
  unfold foldLine
  rw [show s2c "REMARK " ++ padLeftWith ' ' 3 (natToChars t) ++ [' '] ++ txt ++
      List.replicate (70 - (11 + utf8Len txt)) ' ' =
      s2c "REMARK" ++ ([' '] ++ (padLeftWith ' ' 3 (natToChars t) ++ ([' '] ++ (txt ++
      List.replicate (70 - (11 + utf8Len txt)) ' '))))
      from by
    rw [show s2c "REMARK " = s2c "REMARK" ++ [' '] from rfl]
    simp only [List.append_assoc]]
  rw [parse_line_remarkTag _ ln (by
    rw [utf8Len_append]
    have : utf8Len [' '] = 1 := rfl
    omega)]
  rw [show s2c "REMARK" ++ ([' '] ++ (padLeftWith ' ' 3 (natToChars t) ++ ([' '] ++ (txt ++
      List.replicate (70 - (11 + utf8Len txt)) ' ')))) =
      s2c "REMARK " ++ padLeftWith ' ' 3 (natToChars t) ++ [' '] ++ txt ++
      List.replicate (70 - (11 + utf8Len txt)) ' ' from by
    rw [show s2c "REMARK " = s2c "REMARK" ++ [' '] from rfl]
    simp only [List.append_assoc]]
  simp only [hPR, hAR]

theorem foldLine_ter (pdb : PDB) (ln : Nat) :
    foldLine pdb (write_line (s2c "TER")) ln = .ok pdb := by
  have h : parse_line (write_line (s2c "TER")) ln = .ok .Ter := by
    have h67 : write_line (s2c "TER") = s2c "TER   " ++ List.replicate 64 ' ' := by decide
    rw [h67]
    have hgt : 6 < utf8Len (s2c "TER   " ++ List.replicate 64 ' ') := by
      rw [utf8Len_append, show utf8Len (s2c "TER   ") = 6 from rfl,
        utf8Len_replicate_space]
      omega
    have htake : byteTakeOpt (s2c "TER   " ++ List.replicate 64 ' ') 6 =
        some (s2c "TER   ") := by
      have := byteTakeOpt_exact (s2c "TER   ") (List.replicate 64 ' ')
      rwa [show utf8Len (s2c "TER   ") = 6 from rfl] at this
    unfold parse_line
    rw [if_pos hgt, htake]
    norm_num [show s2c "TER   " ≠ s2c "HEADER" from by decide,
      show s2c "TER   " ≠ s2c "REMARK" from by decide,
      show s2c "TER   " ≠ s2c "HETATM" from by decide,
      show s2c "TER   " ≠ s2c "ATOM  " from by decide]
  unfold foldLine
  rw [h]

/-! Composing the read loop. -/

theorem readLoop_append (ls1 ls2 : List Str) : ∀ (ln : Nat) (pdb : PDB),
    readLoop (ls1 ++ ls2) ln pdb =
      match readLoop ls1 ln pdb with
      | .ok p2 => readLoop ls2 (ln + ls1.length) p2
      | .err e => .err e
      | .panicked m => .panicked m := by
  induction ls1 with
  | nil => intro ln pdb; simp [readLoop]
  | cons l rest ih =>
      intro ln pdb
      simp only [List.cons_append, readLoop, List.length_cons]
      cases foldLine pdb l ln with
      | ok p2 =>
          show readLoop (rest ++ ls2) (ln + 1) p2 =
            (match readLoop rest (ln + 1) p2 with
              | RRes.ok q => readLoop ls2 (ln + (rest.length + 1)) q
              | RRes.err e => RRes.err e
              | RRes.panicked m => RRes.panicked m)
          rw [ih (ln + 1) p2]
          rw [show ln + 1 + rest.length = ln + (rest.length + 1) by omega]
      | err e => rfl
      | panicked m => rfl

theorem F64.beq_self_fin (m e : Int) : F64.beq (.fin m e) (.fin m e) = true := by
  simp [F64.beq]

theorem atomBeq_readBack (a : Atom) (h : wfAtomForSave a = true) :
    atomBeq a (readBackAtom a) = true := by
  obtain ⟨het, sn, nm, alt, rn, ci, rs, ic, x, y, z, oc, tf, sg, el, ch⟩ := a
  simp only [wfAtomForSave, Bool.and_eq_true, decide_eq_true_eq, beq_iff_eq, and_assoc] at h
  obtain ⟨hsn, hnmv, hnmt, hnmu, hnml, halt, hrnv, hrnt, hrnu, hrnl, hciv, hcit, hciu, hcil,
    hrs, hic, hxw, hyw, hzw, how, htw, helv, helt, helu, hell, hch0, hch9⟩ := h
  obtain ⟨mx, rfl, -, -⟩ := f64Thousandths_elim _ _ _ hxw
  obtain ⟨my, rfl, -, -⟩ := f64Thousandths_elim _ _ _ hyw
  obtain ⟨mz, rfl, -, -⟩ := f64Thousandths_elim _ _ _ hzw
  obtain ⟨mo, rfl, -, -⟩ := f64Hundredths_elim _ _ _ how
  obtain ⟨mt, rfl, -, -⟩ := f64Hundredths_elim _ _ _ htw
  simp [atomBeq, readBackAtom, F64.beq_self_fin]

theorem readLoop_atoms (atoms : List Atom) : ∀ (pdb : PDB) (ln : Nat),
    (∀ a ∈ atoms, wfAtomForSave a = true) →
    readLoop (atoms.map (fun a => write_line (atomLine a))) ln pdb =
      .ok { pdb with atoms := pdb.atoms ++ atoms.map readBackAtom } := by
  induction atoms with
  | nil => intro pdb ln _; simp [readLoop]
  | cons a rest ih =>
      intro pdb ln h
      simp only [List.map_cons, readLoop, foldLine_atom pdb a (h a (by simp)) ln]
      rw [ih _ _ (fun b hb => h b (by simp [hb]))]
      simp [PDB.add_atom, List.append_assoc]

theorem readLoop_remarks (rs : List (Nat × Str)) : ∀ (pdb : PDB) (ln : Nat),
    (∀ r ∈ rs, wfRemark r = true) →
    readLoop (rs.map (fun r =>
        write_line (s2c "REMARK " ++ padLeftWith ' ' 3 (natToChars r.1) ++ [' '] ++ r.2)))
      ln pdb = .ok { pdb with remarks := pdb.remarks ++ rs } := by
  induction rs with
  | nil => intro pdb ln _; simp [readLoop]
  | cons r rest ih =>
      intro pdb ln h
      have hr := h r (by simp)
      simp only [wfRemark, Bool.and_eq_true, decide_eq_true_eq, beq_iff_eq, and_assoc] at hr
      obtain ⟨hty, hlen, htr, -⟩ := hr
      simp only [List.map_cons, readLoop, foldLine_remark pdb r.1 r.2 ln hty hlen htr]
      rw [ih _ _ (fun q hq => h q (by simp [hq]))]
      simp [List.append_assoc]

theorem readLoop_append_ok (ls1 ls2 : List Str) (ln : Nat) (pdb p1 : PDB)
    (h1 : readLoop ls1 ln pdb = .ok p1) :
    readLoop (ls1 ++ ls2) ln pdb = readLoop ls2 (ln + ls1.length) p1 := by
  rw [readLoop_append, h1]

theorem forall2_readBack (l : List Atom) (h : ∀ a ∈ l, wfAtomForSave a = true) :
    List.Forall₂ (fun a b => atomBeq a b = true) l (l.map readBackAtom) := by
  induction l with
  | nil => exact List.Forall₂.nil
  | cons a rest ih =>
      exact List.Forall₂.cons (atomBeq_readBack a (h a (by simp)))
        (ih fun b hb => h b (by simp [hb]))

theorem readLoop_terOnly (p : PDB) (ln : Nat) :
    readLoop [write_line (s2c "TER")] ln p = .ok p := by
  simp only [readLoop, foldLine_ter]

/-- Claim C2 (amended): writing a structure whose stored fields fit the fixed
columns exactly (`wfPDBForSave`) with `atom_only = false` and reading the text
back yields `Ok` of a structure with the same identifier, the same remark
sequence, and an atom sequence equal element-by-element under the `PartialEq`
of `Atom` (which ignores `charge` and `segment_id`). -/
theorem claim_C2 (pdb : PDB) (h : wfPDBForSave pdb = true) :
    ∃ p2, read_pdb_raw (save_pdb_raw pdb false) = .ok p2 ∧ pdbMatches pdb p2 := by
  simp only [wfPDBForSave, Bool.and_eq_true, and_assoc] at h
  obtain ⟨hid, hrem, hatoms⟩ := h
  have hremAll := List.all_eq_true.mp hrem
  have hatomAll := List.all_eq_true.mp hatoms
  refine ⟨PDB.mk pdb.identifier pdb.remarks (pdb.atoms.map readBackAtom),
    ?_, rfl, rfl, forall2_readBack _ hatomAll⟩
  unfold read_pdb_raw save_pdb_raw
  rw [if_pos (by simp)]
  cases hident : pdb.identifier with
  | none =>
      have h1 : ∀ ln, readLoop (pdb.remarks.map (fun r =>
          write_line (s2c "REMARK " ++ padLeftWith ' ' 3 (natToChars r.1) ++ [' '] ++ r.2)))
          ln PDB.new = .ok ⟨none, pdb.remarks, []⟩ := fun ln => by
        rw [readLoop_remarks pdb.remarks PDB.new ln hremAll]
        rfl
      have h2 : ∀ ln, readLoop (pdb.atoms.map (fun a => write_line (atomLine a)))
          ln ⟨none, pdb.remarks, []⟩ =
          .ok ⟨none, pdb.remarks, pdb.atoms.map readBackAtom⟩ := fun ln => by
        rw [readLoop_atoms pdb.atoms _ ln hatomAll]
        rfl
      rw [List.nil_append]
      have hAB : readLoop ((pdb.remarks.map (fun r =>
          write_line (s2c "REMARK " ++ padLeftWith ' ' 3 (natToChars r.1) ++ [' '] ++ r.2))) ++
          pdb.atoms.map (fun a => write_line (atomLine a))) 1 PDB.new =
          .ok ⟨none, pdb.remarks, pdb.atoms.map readBackAtom⟩ := by
        rw [readLoop_append_ok _ _ _ _ _ (h1 1), h2]
      rw [readLoop_append_ok _ _ _ _ _ hAB, readLoop_terOnly]
  | some idnt =>
      rw [hident] at hid
      simp only [Bool.and_eq_true, and_assoc, beq_iff_eq, decide_eq_true_eq,
        Bool.not_eq_true'] at hid
      obtain ⟨hv, ht, hu, hni, hlen⟩ := hid
      have hne : idnt ≠ [] := by cases idnt <;> simp_all
      have h0 : readLoop [write_line (s2c "HEADER" ++ List.replicate 56 ' ' ++ idnt)]
          1 PDB.new = .ok ⟨some idnt, [], []⟩ := by
        simp only [readLoop, foldLine_header PDB.new idnt 1 hv ht hu hne hlen]
        rfl
      have h1 : ∀ ln, readLoop (pdb.remarks.map (fun r =>
          write_line (s2c "REMARK " ++ padLeftWith ' ' 3 (natToChars r.1) ++ [' '] ++ r.2)))
          ln ⟨some idnt, [], []⟩ = .ok ⟨some idnt, pdb.remarks, []⟩ := fun ln => by
        rw [readLoop_remarks pdb.remarks _ ln hremAll]
        rfl
      have h2 : ∀ ln, readLoop (pdb.atoms.map (fun a => write_line (atomLine a)))
          ln ⟨some idnt, pdb.remarks, []⟩ =
          .ok ⟨some idnt, pdb.remarks, pdb.atoms.map readBackAtom⟩ := fun ln => by
        rw [readLoop_atoms pdb.atoms _ ln hatomAll]
        rfl
      have hA : readLoop ([write_line (s2c "HEADER" ++ List.replicate 56 ' ' ++ idnt)] ++
          pdb.remarks.map (fun r =>
            write_line (s2c "REMARK " ++ padLeftWith ' ' 3 (natToChars r.1) ++ [' '] ++ r.2)))
          1 PDB.new = .ok ⟨some idnt, pdb.remarks, []⟩ := by
        rw [readLoop_append_ok _ _ _ _ _ h0, h1]
      have hAB : readLoop (([write_line (s2c "HEADER" ++ List.replicate 56 ' ' ++ idnt)] ++
          pdb.remarks.map (fun r =>
            write_line (s2c "REMARK " ++ padLeftWith ' ' 3 (natToChars r.1) ++ [' '] ++ r.2))) ++
          pdb.atoms.map (fun a => write_line (atomLine a))) 1 PDB.new =
          .ok ⟨some idnt, pdb.remarks, pdb.atoms.map readBackAtom⟩ := by
        rw [readLoop_append_ok _ _ _ _ _ hA, h2]
      rw [readLoop_append_ok _ _ _ _ _ hAB, readLoop_terOnly]

theorem claim_C2_counterexample :
    (PDB.add_remarks PDB.new 3 (s2c "A ")).1 = .ok () ∧
    (PDB.add_remarks PDB.new 3 (s2c "A ")).2 = pdbRemarkTrailing ∧
    read_pdb_raw (save_pdb_raw pdbRemarkTrailing false) =
      .ok { identifier := none, remarks := [(3, s2c "A")], atoms := [] } ∧
    ¬ pdbMatches pdbRemarkTrailing
      { identifier := none, remarks := [(3, s2c "A")], atoms := [] } := by
  refine ⟨by decide, by decide, by decide, ?_⟩
  intro hm
  exact absurd hm.2.1 (by decide)

theorem claim_C2_witness :
    wfPDBForSave pdbScen = true ∧
    ∃ p2, read_pdb_raw (save_pdb_raw pdbScen false) = .ok p2 ∧ pdbMatches pdbScen p2 :=
  ⟨by decide, claim_C2 pdbScen (by decide)⟩

/-- Claim C1: the specification requires decode errors to propagate, but the
read loop's `if let Ok(result) = parse_result` has no else branch: a line that
fails to decode is silently skipped and reading continues, returning a
structure built past the malformed line. Decoding `lineShortAtom` fails, yet
reading a stream holding only that line succeeds with an empty structure. -/
theorem claim_C1 :
    (parse_line lineShortAtom 1).isErr = true ∧
    read_pdb_raw [lineShortAtom] = .ok PDB.new := by
  decide

theorem check_char_asciiUpperChar (c : Char) (h : check_char c = true) :
    check_char (asciiUpperChar c) = true := by
  simp only [check_char, decide_eq_true_eq] at h ⊢
  unfold asciiUpperChar
  split
  · rename_i hc
    have h1 : 97 ≤ c.toNat := hc.1
    have h2 : c.toNat ≤ 122 := hc.2
    have hv : Nat.isValidChar (c.toNat - 32) := Or.inl (by omega)
    have he : (Char.ofNat (c.toNat - 32)).toNat = c.toNat - 32 := by
      unfold Char.ofNat
      rw [dif_pos (by simpa using hv)]
      exact rfl
    rw [he]
    omega
  · exact h

theorem valid_identifier_asciiUpper (l : Str) (h : valid_identifier l = true) :
    valid_identifier (asciiUpper l) = true := by
  simp only [valid_identifier, asciiUpper, List.all_map, List.all_eq_true,
    Function.comp_apply] at h ⊢
  intro c hc
  exact check_char_asciiUpperChar c (h c hc)

theorem valid_identifier_trim (l : Str) (h : valid_identifier l = true) :
    valid_identifier (trimChars l) = true := by
  simp only [valid_identifier, List.all_eq_true] at h ⊢
  intro c hc
  apply h
  have hc1 : c ∈ (ltrimChars l).reverse.dropWhile rustIsWhitespace := by
    simpa [trimChars, trimEndChars] using hc
  have hc2 : c ∈ ltrimChars l := by
    have hs := (List.dropWhile_sublist rustIsWhitespace).subset hc1
    simpa using hs
  exact (List.dropWhile_sublist rustIsWhitespace).subset hc2

theorem valid_identifier_upTrim (l : Str) (h : valid_identifier l = true) :
    valid_identifier (asciiUpper (trimChars l)) = true :=
  valid_identifier_asciiUpper _ (valid_identifier_trim _ h)

theorem atom_new_none (het : Bool) (sn : Nat) (nm rn ci : Str) (rs : Nat)
    (x y z oc tf : F64) (el : Str) (ch : Int)
    (h : (valid_identifier nm && valid_identifier el && F64.isFinite x && F64.isFinite y &&
      F64.isFinite z && F64.isFinite oc && F64.isFinite tf) = false) :
    Atom.new het sn nm rn ci rs x y z oc tf el ch = none := by
  unfold Atom.new
  rw [if_neg]
  simp [h]

theorem atom_new_inv (het : Bool) (sn : Nat) (nm rn ci : Str) (rs : Nat)
    (x y z oc tf : F64) (el : Str) (ch : Int) (a : Atom)
    (h : Atom.new het sn nm rn ci rs x y z oc tf el ch = some a) :
    atomInv a = true := by
  unfold Atom.new at h
  split at h
  · rename_i hcond
    simp only [Bool.and_eq_true] at hcond
    obtain ⟨⟨⟨⟨⟨⟨hnm, hel⟩, hx⟩, hy⟩, hz⟩, ho⟩, ht⟩ := hcond
    cases h
    simp [atomInv, valid_identifier_upTrim _ hnm, valid_identifier_upTrim _ hel,
      hx, hy, hz, ho, ht]
  · exact absurd h (by simp)

theorem set_name_fail (a : Atom) (nm : Str) (h : valid_identifier nm = false) :
    (Atom.set_name a nm).2 = a ∧ ∃ e, (Atom.set_name a nm).1 = .error e := by
  unfold Atom.set_name
  rw [if_neg (by simp [h])]
  exact ⟨rfl, _, rfl⟩

theorem set_name_inv (a : Atom) (nm : Str) (h : atomInv a = true) :
    atomInv (Atom.set_name a nm).2 = true := by
  unfold Atom.set_name
  split
  · rename_i hv
    simp only [atomInv, Bool.and_eq_true] at h ⊢
    exact ⟨⟨⟨⟨⟨⟨valid_identifier_upTrim _ hv, h.1.1.1.1.1.2⟩, h.1.1.1.1.2⟩, h.1.1.1.2⟩,
      h.1.1.2⟩, h.1.2⟩, h.2⟩
  · exact h

theorem set_residue_name_fail (a : Atom) (rn : Str)
    (h : ¬ (valid_identifier rn = true ∧ utf8Len rn = 3)) :
    (Atom.set_residue_name a rn).2 = a ∧ ∃ e, (Atom.set_residue_name a rn).1 = .error e := by
  unfold Atom.set_residue_name
  rw [if_neg h]
  exact ⟨rfl, _, rfl⟩

theorem set_residue_name_inv (a : Atom) (rn : Str) (h : atomInv a = true) :
    atomInv (Atom.set_residue_name a rn).2 = true := by
  unfold Atom.set_residue_name
  split
  · exact h
  · exact h

theorem set_chain_id_fail (a : Atom) (ci : Str)
    (h : ¬ (valid_identifier ci = true ∧ utf8Len ci = 1)) :
    (Atom.set_chain_id a ci).2 = a ∧ ∃ e, (Atom.set_chain_id a ci).1 = .error e := by
  unfold Atom.set_chain_id
  rw [if_neg h]
  exact ⟨rfl, _, rfl⟩

theorem set_chain_id_inv (a : Atom) (ci : Str) (h : atomInv a = true) :
    atomInv (Atom.set_chain_id a ci).2 = true := by
  unfold Atom.set_chain_id
  split
  · exact h
  · exact h

theorem set_element_fail (a : Atom) (el : Str) (h : valid_identifier el = false) :
    (Atom.set_element a el).2 = a ∧ ∃ e, (Atom.set_element a el).1 = .error e := by
  unfold Atom.set_element
  rw [if_neg (by simp [h])]
  exact ⟨rfl, _, rfl⟩

theorem set_element_inv (a : Atom) (el : Str) (h : atomInv a = true) :
    atomInv (Atom.set_element a el).2 = true := by
  unfold Atom.set_element
  split
  · rename_i hv
    simp only [atomInv, Bool.and_eq_true] at h ⊢
    exact ⟨⟨⟨⟨⟨⟨h.1.1.1.1.1.1, valid_identifier_upTrim _ hv⟩, h.1.1.1.1.2⟩, h.1.1.1.2⟩,
      h.1.1.2⟩, h.1.2⟩, h.2⟩
  · exact h

theorem set_position_fail (a : Atom) (p : F64 × F64 × F64)
    (h : ¬ (p.1.isFinite = true ∧ p.2.1.isFinite = true ∧ p.2.2.isFinite = true)) :
    (Atom.set_position a p).2 = a ∧ ∃ e, (Atom.set_position a p).1 = .error e := by
  unfold Atom.set_position
  rw [if_neg h]
  exact ⟨rfl, _, rfl⟩

theorem set_position_inv (a : Atom) (p : F64 × F64 × F64) (h : atomInv a = true) :
    atomInv (Atom.set_position a p).2 = true := by
  unfold Atom.set_position
  split
  · rename_i hf
    simp only [atomInv, Bool.and_eq_true] at h ⊢
    exact ⟨⟨⟨⟨⟨⟨h.1.1.1.1.1.1, h.1.1.1.1.1.2⟩, hf.1⟩, hf.2.1⟩, hf.2.2⟩, h.1.2⟩, h.2⟩
  · exact h

theorem set_x_fail (a : Atom) (v : F64) (h : F64.isFinite v = false) :
    (Atom.set_x a v).2 = a ∧ ∃ e, (Atom.set_x a v).1 = .error e := by
  unfold Atom.set_x
  rw [if_neg (by simp [h])]
  exact ⟨rfl, _, rfl⟩

theorem set_x_inv (a : Atom) (v : F64) (h : atomInv a = true) :
    atomInv (Atom.set_x a v).2 = true := by
  unfold Atom.set_x
  split
  · rename_i hf
    simp only [atomInv, Bool.and_eq_true] at h ⊢
    exact ⟨⟨⟨⟨⟨⟨h.1.1.1.1.1.1, h.1.1.1.1.1.2⟩, hf⟩, h.1.1.1.2⟩, h.1.1.2⟩, h.1.2⟩, h.2⟩
  · exact h

theorem set_y_fail (a : Atom) (v : F64) (h : F64.isFinite v = false) :
    (Atom.set_y a v).2 = a ∧ ∃ e, (Atom.set_y a v).1 = .error e := by
  unfold Atom.set_y
  rw [if_neg (by simp [h])]
  exact ⟨rfl, _, rfl⟩

theorem set_y_inv (a : Atom) (v : F64) (h : atomInv a = true) :
    atomInv (Atom.set_y a v).2 = true := by
  unfold Atom.set_y
  split
  · rename_i hf
    simp only [atomInv, Bool.and_eq_true] at h ⊢
    exact ⟨⟨⟨⟨⟨⟨h.1.1.1.1.1.1, h.1.1.1.1.1.2⟩, h.1.1.1.1.2⟩, hf⟩, h.1.1.2⟩, h.1.2⟩, h.2⟩
  · exact h

theorem set_z_fail (a : Atom) (v : F64) (h : F64.isFinite v = false) :
    (Atom.set_z a v).2 = a ∧ ∃ e, (Atom.set_z a v).1 = .error e := by
  unfold Atom.set_z
  rw [if_neg (by simp [h])]
  exact ⟨rfl, _, rfl⟩

theorem set_z_inv (a : Atom) (v : F64) (h : atomInv a = true) :
    atomInv (Atom.set_z a v).2 = true := by
  unfold Atom.set_z
  split
  · rename_i hf
    simp only [atomInv, Bool.and_eq_true] at h ⊢
    exact ⟨⟨⟨⟨⟨⟨h.1.1.1.1.1.1, h.1.1.1.1.1.2⟩, h.1.1.1.1.2⟩, h.1.1.1.2⟩, hf⟩, h.1.2⟩, h.2⟩
  · exact h

theorem set_occupancy_fail (a : Atom) (v : F64) (h : F64.isFinite v = false) :
    (Atom.set_occupancy a v).2 = a ∧ ∃ e, (Atom.set_occupancy a v).1 = .error e := by
  unfold Atom.set_occupancy
  rw [if_neg (by simp [h])]
  exact ⟨rfl, _, rfl⟩

theorem set_occupancy_inv (a : Atom) (v : F64) (h : atomInv a = true) :
    atomInv (Atom.set_occupancy a v).2 = true := by
  unfold Atom.set_occupancy
  split
  · rename_i hf
    simp only [atomInv, Bool.and_eq_true] at h ⊢
    exact ⟨⟨⟨⟨⟨⟨h.1.1.1.1.1.1, h.1.1.1.1.1.2⟩, h.1.1.1.1.2⟩, h.1.1.1.2⟩, h.1.1.2⟩, hf⟩, h.2⟩
  · exact h

theorem set_temp_factor_fail (a : Atom) (v : F64) (h : F64.isFinite v = false) :
    (Atom.set_temp_factor a v).2 = a ∧ ∃ e, (Atom.set_temp_factor a v).1 = .error e := by
  unfold Atom.set_temp_factor
  rw [if_neg (by simp [h])]
  exact ⟨rfl, _, rfl⟩

theorem set_temp_factor_inv (a : Atom) (v : F64) (h : atomInv a = true) :
    atomInv (Atom.set_temp_factor a v).2 = true := by
  unfold Atom.set_temp_factor
  split
  · rename_i hf
    simp only [atomInv, Bool.and_eq_true] at h ⊢
    exact ⟨⟨⟨⟨⟨⟨h.1.1.1.1.1.1, h.1.1.1.1.1.2⟩, h.1.1.1.1.2⟩, h.1.1.1.2⟩, h.1.1.2⟩, h.1.2⟩, hf⟩
  · exact h

/-- Claim C3: `Atom::new` returns `None` whenever the name or element fails the
character-class check or any numeric argument is non-finite, any atom it does
return satisfies the invariant, and each of the ten in-place setters returns a
typed `InvalidValue` error without mutating any field on a violating argument
and preserves the invariant on every argument. -/
theorem claim_C3 :
    (∀ het sn nm rn ci rs x y z oc tf el ch,
        (valid_identifier nm && valid_identifier el && F64.isFinite x && F64.isFinite y &&
          F64.isFinite z && F64.isFinite oc && F64.isFinite tf) = false →
        Atom.new het sn nm rn ci rs x y z oc tf el ch = none) ∧
    (∀ het sn nm rn ci rs x y z oc tf el ch a,
        Atom.new het sn nm rn ci rs x y z oc tf el ch = some a → atomInv a = true) ∧
    (∀ a nm, valid_identifier nm = false →
        (Atom.set_name a nm).2 = a ∧ ∃ e, (Atom.set_name a nm).1 = .error e) ∧
    (∀ a nm, atomInv a = true → atomInv (Atom.set_name a nm).2 = true) ∧
    (∀ a rn, ¬ (valid_identifier rn = true ∧ utf8Len rn = 3) →
        (Atom.set_residue_name a rn).2 = a ∧
        ∃ e, (Atom.set_residue_name a rn).1 = .error e) ∧
    (∀ a rn, atomInv a = true → atomInv (Atom.set_residue_name a rn).2 = true) ∧
    (∀ a ci, ¬ (valid_identifier ci = true ∧ utf8Len ci = 1) →
        (Atom.set_chain_id a ci).2 = a ∧ ∃ e, (Atom.set_chain_id a ci).1 = .error e) ∧
    (∀ a ci, atomInv a = true → atomInv (Atom.set_chain_id a ci).2 = true) ∧
    (∀ a el, valid_identifier el = false →
        (Atom.set_element a el).2 = a ∧ ∃ e, (Atom.set_element a el).1 = .error e) ∧
    (∀ a el, atomInv a = true → atomInv (Atom.set_element a el).2 = true) ∧
    (∀ a p, ¬ (F64.isFinite p.1 = true ∧ F64.isFinite p.2.1 = true ∧
          F64.isFinite p.2.2 = true) →
        (Atom.set_position a p).2 = a ∧ ∃ e, (Atom.set_position a p).1 = .error e) ∧
    (∀ a p, atomInv a = true → atomInv (Atom.set_position a p).2 = true) ∧
    (∀ a v, F64.isFinite v = false →
        (Atom.set_x a v).2 = a ∧ ∃ e, (Atom.set_x a v).1 = .error e) ∧
    (∀ a v, atomInv a = true → atomInv (Atom.set_x a v).2 = true) ∧
    (∀ a v, F64.isFinite v = false →
        (Atom.set_y a v).2 = a ∧ ∃ e, (Atom.set_y a v).1 = .error e) ∧
    (∀ a v, atomInv a = true → atomInv (Atom.set_y a v).2 = true) ∧
    (∀ a v, F64.isFinite v = false →
        (Atom.set_z a v).2 = a ∧ ∃ e, (Atom.set_z a v).1 = .error e) ∧
    (∀ a v, atomInv a = true → atomInv (Atom.set_z a v).2 = true) ∧
    (∀ a v, F64.isFinite v = false →
        (Atom.set_occupancy a v).2 = a ∧ ∃ e, (Atom.set_occupancy a v).1 = .error e) ∧
    (∀ a v, atomInv a = true → atomInv (Atom.set_occupancy a v).2 = true) ∧
    (∀ a v, F64.isFinite v = false →
        (Atom.set_temp_factor a v).2 = a ∧ ∃ e, (Atom.set_temp_factor a v).1 = .error e) ∧
    (∀ a v, atomInv a = true → atomInv (Atom.set_temp_factor a v).2 = true) :=
  ⟨fun _ _ _ _ _ _ _ _ _ _ _ _ _ h => atom_new_none _ _ _ _ _ _ _ _ _ _ _ _ _ h,
   fun _ _ _ _ _ _ _ _ _ _ _ _ _ _ h => atom_new_inv _ _ _ _ _ _ _ _ _ _ _ _ _ _ h,
   set_name_fail, set_name_inv, set_residue_name_fail, set_residue_name_inv,
   set_chain_id_fail, set_chain_id_inv, set_element_fail, set_element_inv,
   set_position_fail, set_position_inv, set_x_fail, set_x_inv, set_y_fail, set_y_inv,
   set_z_fail, set_z_inv, set_occupancy_fail, set_occupancy_inv,
   set_temp_factor_fail, set_temp_factor_inv⟩

theorem claim_C3_witness :
    (Atom.new false 1 ['N'] (s2c "ALA") ['A'] 1 F64.nan (.fin 0 0) (.fin 0 0)
        (.fin 100 2) (.fin 0 0) ['N'] 0 = none) ∧
    atomInv (Atom.set_x atomScen F64.inf).2 = true ∧
    ((Atom.set_name atomScen [Char.ofNat 7]).2 = atomScen ∧
      ∃ e, (Atom.set_name atomScen [Char.ofNat 7]).1 = .error e) ∧
    ((Atom.set_chain_id atomScen (s2c "AB")).2 = atomScen ∧
      ∃ e, (Atom.set_chain_id atomScen (s2c "AB")).1 = .error e) :=
  ⟨claim_C3.1 false 1 ['N'] (s2c "ALA") ['A'] 1 F64.nan (.fin 0 0) (.fin 0 0)
      (.fin 100 2) (.fin 0 0) ['N'] 0 (by decide),
   claim_C3.2.2.2.2.2.2.2.2.2.2.2.2.2.1 atomScen F64.inf (by decide),
   claim_C3.2.2.1 atomScen [Char.ofNat 7] (by decide),
   claim_C3.2.2.2.2.2.2.1 atomScen (s2c "AB") (by decide)⟩

theorem RRes.bind_eq_ok {α β : Type} (x : RRes α) (f : α → RRes β) (b : β)
    (h : (x >>= f) = .ok b) : ∃ a, x = .ok a ∧ f a = .ok b := by
  cases x with
  | ok a => exact ⟨a, rfl, h⟩
  | err e => exact absurd h (by simp [Bind.bind, RRes.bind])
  | panicked m => exact absurd h (by simp [Bind.bind, RRes.bind])


theorem parse_atom_ok_elim (chars : Str) (ln : Nat) (het : Bool) (r : ParsedItems)
    (h : parse_atom chars ln het = .ok r) :
    54 ≤ chars.length ∧ chars.length ≠ 77 ∧
    ∃ sn nm rn cc rs x y z oc tf elV cg,
      r = .Atom het sn nm none rn [cc] rs none x y z oc tf none elV cg ∧
      (chars.length ≤ 76 → elV = []) ∧
      (78 ≤ chars.length → elV = (chars.drop 76).take 2) ∧
      (chars.length < 80 → cg = 0) ∧
      (∀ c78 c79, chars.get? 78 = some c78 → chars.get? 79 = some c79 →
        80 ≤ chars.length →
        (rustIsWhitespace c78 = true ∧ rustIsWhitespace c79 = true → cg = 0) ∧
        (¬ (rustIsWhitespace c78 = true ∧ rustIsWhitespace c79 = true) →
          c78.isDigit = true ∧ (c79 = '-' ∨ c79 = '+') ∧
          cg = Int.ofNat (c78.toNat - 48))) := by
  unfold parse_atom at h
  by_cases c54 : chars.length < 54
  case pos =>
    rw [if_pos c54] at h
    exact RRes.noConfusion h
  case neg =>
    rw [if_neg c54] at h
    obtain ⟨s5, hs5, h⟩ := RRes.bind_eq_ok _ _ _ h
    obtain ⟨sn, hsn, h⟩ := RRes.bind_eq_ok _ _ _ h
    obtain ⟨nm, hnm, h⟩ := RRes.bind_eq_ok _ _ _ h
    obtain ⟨rn, hrn, h⟩ := RRes.bind_eq_ok _ _ _ h
    obtain ⟨cc, hcc, h⟩ := RRes.bind_eq_ok _ _ _ h
    obtain ⟨q4, hq4, h⟩ := RRes.bind_eq_ok _ _ _ h
    obtain ⟨rs, hrs, h⟩ := RRes.bind_eq_ok _ _ _ h
    obtain ⟨xs, hxs, h⟩ := RRes.bind_eq_ok _ _ _ h
    obtain ⟨x, hx, h⟩ := RRes.bind_eq_ok _ _ _ h
    obtain ⟨ys, hys, h⟩ := RRes.bind_eq_ok _ _ _ h
    obtain ⟨y, hy, h⟩ := RRes.bind_eq_ok _ _ _ h
    obtain ⟨zs, hzs, h⟩ := RRes.bind_eq_ok _ _ _ h
    obtain ⟨z, hz, h⟩ := RRes.bind_eq_ok _ _ _ h
    by_cases c60 : 60 ≤ chars.length
    case neg =>
      simp only [if_neg c60, if_neg (show ¬ (66 ≤ chars.length) from by omega),
        if_neg (show ¬ (77 ≤ chars.length) from by omega),
        if_neg (show ¬ (80 ≤ chars.length) from by omega)] at h
      obtain ⟨oc, hoc, h⟩ := RRes.bind_eq_ok _ _ _ h
      obtain ⟨tf, htf, h⟩ := RRes.bind_eq_ok _ _ _ h
      obtain ⟨elV, helV, h⟩ := RRes.bind_eq_ok _ _ _ h
      obtain ⟨cg, hcg, h⟩ := RRes.bind_eq_ok _ _ _ h
      cases h
      exact ⟨by omega, by omega, sn, nm, rn, cc, rs, x, y, z, oc, tf, elV, cg, rfl,
        fun _ => (RRes.ok.inj helV).symm, fun h78 => absurd h78 (by omega),
        fun _ => (RRes.ok.inj hcg).symm, fun _ _ _ _ h80 => absurd h80 (by omega)⟩
    case pos =>
      by_cases c66 : 66 ≤ chars.length
      case neg =>
        simp only [if_pos c60, if_neg c66,
          if_neg (show ¬ (77 ≤ chars.length) from by omega),
          if_neg (show ¬ (80 ≤ chars.length) from by omega)] at h
        obtain ⟨os, hos, h⟩ := RRes.bind_eq_ok _ _ _ h
        obtain ⟨oc, hoc, h⟩ := RRes.bind_eq_ok _ _ _ h
        obtain ⟨tf, htf, h⟩ := RRes.bind_eq_ok _ _ _ h
        obtain ⟨elV, helV, h⟩ := RRes.bind_eq_ok _ _ _ h
        obtain ⟨cg, hcg, h⟩ := RRes.bind_eq_ok _ _ _ h
        cases h
        exact ⟨by omega, by omega, sn, nm, rn, cc, rs, x, y, z, oc, tf, elV, cg, rfl,
          fun _ => (RRes.ok.inj helV).symm, fun h78 => absurd h78 (by omega),
          fun _ => (RRes.ok.inj hcg).symm, fun _ _ _ _ h80 => absurd h80 (by omega)⟩
      case pos =>
        by_cases c77 : 77 ≤ chars.length
        case neg =>
          simp only [if_pos c60, if_pos c66, if_neg c77,
            if_neg (show ¬ (80 ≤ chars.length) from by omega)] at h
          obtain ⟨os, hos, h⟩ := RRes.bind_eq_ok _ _ _ h
          obtain ⟨oc, hoc, h⟩ := RRes.bind_eq_ok _ _ _ h
          obtain ⟨ts, hts, h⟩ := RRes.bind_eq_ok _ _ _ h
          obtain ⟨tf, htf, h⟩ := RRes.bind_eq_ok _ _ _ h
          obtain ⟨elV, helV, h⟩ := RRes.bind_eq_ok _ _ _ h
          obtain ⟨cg, hcg, h⟩ := RRes.bind_eq_ok _ _ _ h
          cases h
          exact ⟨by omega, by omega, sn, nm, rn, cc, rs, x, y, z, oc, tf, elV, cg, rfl,
            fun _ => (RRes.ok.inj helV).symm, fun h78 => absurd h78 (by omega),
            fun _ => (RRes.ok.inj hcg).symm, fun _ _ _ _ h80 => absurd h80 (by omega)⟩
        case pos =>
          by_cases c80 : 80 ≤ chars.length
          case neg =>
            simp only [if_pos c60, if_pos c66, if_pos c77, if_neg c80] at h
            obtain ⟨os, hos, h⟩ := RRes.bind_eq_ok _ _ _ h
            obtain ⟨oc, hoc, h⟩ := RRes.bind_eq_ok _ _ _ h
            obtain ⟨ts, hts, h⟩ := RRes.bind_eq_ok _ _ _ h
            obtain ⟨tf, htf, h⟩ := RRes.bind_eq_ok _ _ _ h
            obtain ⟨elV, helV, h⟩ := RRes.bind_eq_ok _ _ _ h
            obtain ⟨cg, hcg, h⟩ := RRes.bind_eq_ok _ _ _ h
            cases h
            by_cases hl77 : chars.length = 77
            · unfold vecSlice at helV
              rw [if_neg (by omega)] at helV
              exact RRes.noConfusion helV
            · unfold vecSlice at helV
              rw [if_pos ⟨by omega, by omega⟩] at helV
              refine ⟨by omega, by omega, sn, nm, rn, cc, rs, x, y, z, oc, tf, elV, cg, rfl,
                fun h76 => absurd h76 (by omega), fun _ => ?_,
                fun _ => (RRes.ok.inj hcg).symm, fun _ _ _ _ h80 => absurd h80 (by omega)⟩
              have := (RRes.ok.inj helV).symm
              simpa using this
          case pos =>
            simp only [if_pos c60, if_pos c66, if_pos c77, if_pos c80] at h
            obtain ⟨os, hos, h⟩ := RRes.bind_eq_ok _ _ _ h
            obtain ⟨oc, hoc, h⟩ := RRes.bind_eq_ok _ _ _ h
            obtain ⟨ts, hts, h⟩ := RRes.bind_eq_ok _ _ _ h
            obtain ⟨tf, htf, h⟩ := RRes.bind_eq_ok _ _ _ h
            obtain ⟨elV, helV, h⟩ := RRes.bind_eq_ok _ _ _ h
            obtain ⟨d78, hi78, h⟩ := RRes.bind_eq_ok _ _ _ h
            obtain ⟨d79, hi79, h⟩ := RRes.bind_eq_ok _ _ _ h
            unfold vecIndex at hi78 hi79
            have hg78 : chars.get? 78 = some d78 := by
              cases hg : chars.get? 78 with
              | none => rw [hg] at hi78; exact RRes.noConfusion hi78
              | some c =>
                  rw [hg] at hi78
                  rw [RRes.ok.inj hi78]
            have hg79 : chars.get? 79 = some d79 := by
              cases hg : chars.get? 79 with
              | none => rw [hg] at hi79; exact RRes.noConfusion hi79
              | some c =>
                  rw [hg] at hi79
                  rw [RRes.ok.inj hi79]
            unfold vecSlice at helV
            rw [if_pos ⟨by omega, by omega⟩] at helV
            have helVe : elV = (chars.drop 76).take 2 := by
              have := (RRes.ok.inj helV).symm
              simpa using this
            by_cases hb : rustIsWhitespace d78 = true ∧ rustIsWhitespace d79 = true
            case pos =>
              rw [if_neg (not_not_intro hb)] at h
              obtain ⟨cg, hcg, h⟩ := RRes.bind_eq_ok _ _ _ h
              cases h
              have hcg0 : cg = 0 := (RRes.ok.inj hcg).symm
              refine ⟨by omega, by omega, sn, nm, rn, cc, rs, x, y, z, oc, tf, elV, cg, rfl,
                fun h76 => absurd h76 (by omega), fun _ => helVe,
                fun _ => hcg0, ?_⟩
              intro c78 c79 h78 h79 _
              rw [hg78] at h78
              rw [hg79] at h79
              cases Option.some.inj h78
              cases Option.some.inj h79
              exact ⟨fun _ => hcg0, fun hnb => absurd hb hnb⟩
            case neg =>
              rw [if_pos hb] at h
              by_cases hd : d78.isDigit = true
              case neg =>
                rw [if_pos hd] at h
                obtain ⟨cg, hcg, h⟩ := RRes.bind_eq_ok _ _ _ h
                exact RRes.noConfusion hcg
              case pos =>
                rw [if_neg (not_not_intro hd)] at h
                by_cases hsg : d79 = '-' ∨ d79 = '+'
                case neg =>
                  rw [if_pos hsg] at h
                  obtain ⟨cg, hcg, h⟩ := RRes.bind_eq_ok _ _ _ h
                  exact RRes.noConfusion hcg
                case pos =>
                  rw [if_neg (not_not_intro hsg)] at h
                  obtain ⟨cg, hcg, h⟩ := RRes.bind_eq_ok _ _ _ h
                  cases h
                  have hcgv : cg = Int.ofNat (d78.toNat - 48) := (RRes.ok.inj hcg).symm
                  refine ⟨by omega, by omega, sn, nm, rn, cc, rs, x, y, z, oc, tf, elV, cg,
                    rfl, fun h76 => absurd h76 (by omega), fun _ => helVe,
                    fun hlt => absurd c80 (by omega), ?_⟩
                  intro c78 c79 h78 h79 _
                  rw [hg78] at h78
                  rw [hg79] at h79
                  cases Option.some.inj h78
                  cases Option.some.inj h79
                  exact ⟨fun hw => absurd hw hb, fun _ => ⟨hd, hsg, hcgv⟩⟩

/-- Claim C6 (amended): on an ATOM/HETATM line the element is the character
slice [76,78) when the line has at least 78 characters and empty when the line
is shorter than 77 characters; but on a line of exactly 77 characters the
slice `chars[76..78]` is taken under the guard `len >= 77` and panics, so
decoding never completes with a value there. -/
theorem claim_C6 (chars : Str) (ln : Nat) (het : Bool) :
    (chars.length = 77 → (parse_atom chars ln het).isOk = false) ∧
    (∀ r, parse_atom chars ln het = .ok r →
      ∃ sn nm rn cc rs x y z oc tf cg,
        r = .Atom het sn nm none rn [cc] rs none x y z oc tf none
          (if 78 ≤ chars.length then (chars.drop 76).take 2 else []) cg) := by
  constructor
  · intro h77
    cases hre : parse_atom chars ln het with
    | ok r =>
        obtain ⟨-, hne, -⟩ := parse_atom_ok_elim _ _ _ _ hre
        exact absurd h77 hne
    | err e => rfl
    | panicked m => rfl
  · intro r hre
    obtain ⟨h54, hne, sn, nm, rn, cc, rs, x, y, z, oc, tf, elV, cg, hr, h76, h78, -, -⟩ :=
      parse_atom_ok_elim _ _ _ _ hre
    refine ⟨sn, nm, rn, cc, rs, x, y, z, oc, tf, cg, ?_⟩
    have he : elV = if 78 ≤ chars.length then (chars.drop 76).take 2 else [] := by
      by_cases hc : 78 ≤ chars.length
      · rw [if_pos hc]
        exact h78 hc
      · rw [if_neg hc]
        exact h76 (by omega)
    rw [hr, he]

theorem claim_C6_counterexample :
    54 ≤ atomLine77.length ∧ atomLine77.length = 77 ∧
    (parse_line atomLine77 1).isPanic = true := by
  decide

theorem claim_C6_witness :
    atomLine77.length = 77 ∧ (parse_atom atomLine77 1 false).isOk = false :=
  ⟨by decide, (claim_C6 atomLine77 1 false).1 (by decide)⟩

/-- Claim C7: on an ATOM/HETATM line the charge is decoded only when the line
has at least 80 characters and characters 78 and 79 are not both whitespace;
then character 78 must be an ASCII digit and character 79 must be '-' or '+'
(decoding fails otherwise), and the stored charge is the digit magnitude with
the sign not applied; in every other case the stored charge is 0. -/
theorem claim_C7 (chars : Str) (ln : Nat) (het : Bool) :
    (chars.length < 80 →
      ∀ sn nm al rn ci rs ic x y z oc tf sg el cg,
        parse_atom chars ln het =
          .ok (.Atom het sn nm al rn ci rs ic x y z oc tf sg el cg) → cg = 0) ∧
    (∀ c78 c79, chars.get? 78 = some c78 → chars.get? 79 = some c79 →
      80 ≤ chars.length →
      (rustIsWhitespace c78 = true ∧ rustIsWhitespace c79 = true →
        ∀ sn nm al rn ci rs ic x y z oc tf sg el cg,
          parse_atom chars ln het =
            .ok (.Atom het sn nm al rn ci rs ic x y z oc tf sg el cg) → cg = 0) ∧
      (¬ (rustIsWhitespace c78 = true ∧ rustIsWhitespace c79 = true) →
        (∀ sn nm al rn ci rs ic x y z oc tf sg el cg,
          parse_atom chars ln het =
            .ok (.Atom het sn nm al rn ci rs ic x y z oc tf sg el cg) →
          c78.isDigit = true ∧ (c79 = '-' ∨ c79 = '+') ∧
          cg = Int.ofNat (c78.toNat - 48)) ∧
        (c78.isDigit = false → (parse_atom chars ln het).isOk = false) ∧
        (¬ (c79 = '-' ∨ c79 = '+') → (parse_atom chars ln het).isOk = false))) := by
  constructor
  · intro hlen sn nm al rn ci rs ic x y z oc tf sg el cg hok
    obtain ⟨-, -, esn, enm, ern, ecc, ers, ex, ey, ez, eoc, etf, eel, ecg, hr, -, -, hlt, -⟩ :=
      parse_atom_ok_elim _ _ _ _ hok
    simp only [ParsedItems.Atom.injEq] at hr
    exact hr.2.2.2.2.2.2.2.2.2.2.2.2.2.2.2.trans (hlt hlen)
  · intro c78 c79 h78 h79 h80
    constructor
    · intro hw sn nm al rn ci rs ic x y z oc tf sg el cg hok
      obtain ⟨-, -, esn, enm, ern, ecc, ers, ex, ey, ez, eoc, etf, eel, ecg, hr, -, -, -,
        hfull⟩ := parse_atom_ok_elim _ _ _ _ hok
      simp only [ParsedItems.Atom.injEq] at hr
      exact hr.2.2.2.2.2.2.2.2.2.2.2.2.2.2.2.trans
        ((hfull c78 c79 h78 h79 h80).1 hw)
    · intro hnb
      refine ⟨?_, ?_, ?_⟩
      · intro sn nm al rn ci rs ic x y z oc tf sg el cg hok
        obtain ⟨-, -, esn, enm, ern, ecc, ers, ex, ey, ez, eoc, etf, eel, ecg, hr, -, -, -,
          hfull⟩ := parse_atom_ok_elim _ _ _ _ hok
        simp only [ParsedItems.Atom.injEq] at hr
        obtain ⟨hd, hsg, hv⟩ := (hfull c78 c79 h78 h79 h80).2 hnb
        exact ⟨hd, hsg, hr.2.2.2.2.2.2.2.2.2.2.2.2.2.2.2.trans hv⟩
      · intro hdf
        cases hre : parse_atom chars ln het with
        | ok r =>
            obtain ⟨-, -, esn, enm, ern, ecc, ers, ex, ey, ez, eoc, etf, eel, ecg, hr, -, -,
              -, hfull⟩ := parse_atom_ok_elim _ _ _ _ hre
            have hd := ((hfull c78 c79 h78 h79 h80).2 hnb).1
            rw [hdf] at hd
            exact absurd hd (by simp)
        | err e => rfl
        | panicked m => rfl
      · intro hns
        cases hre : parse_atom chars ln het with
        | ok r =>
            obtain ⟨-, -, esn, enm, ern, ecc, ers, ex, ey, ez, eoc, etf, eel, ecg, hr, -, -,
              -, hfull⟩ := parse_atom_ok_elim _ _ _ _ hre
            exact absurd ((hfull c78 c79 h78 h79 h80).2 hnb).2.1 hns
        | err e => rfl
        | panicked m => rfl

theorem claim_C7_witness :
    (chargeLine.get? 78 = some '5' ∧ chargeLine.get? 79 = some '+' ∧
      80 ≤ chargeLine.length ∧
      parse_atom chargeLine 1 false =
        .ok (.Atom false 1 (s2c " N  ") none (s2c "ALA") (s2c "A") 1 none
          (.fin 11104 3) (.fin 13207 3) (.fin 2123 3) (.fin 100 2) (.fin 2000 2) none
          (s2c " N") 5) ∧
      (5 : Int) = Int.ofNat ('5'.toNat - 48)) ∧
    (parse_atom badChargeLine 1 false).isOk = false ∧
    (parse_atom badSignLine 1 false).isOk = false ∧
    (scenLine80.get? 78 = some ' ' ∧ scenLine80.get? 79 = some ' ' ∧
      parse_atom scenLine80 1 false =
        .ok (.Atom false 1 (s2c " N  ") none (s2c "ALA") (s2c "A") 1 none
          (.fin 11104 3) (.fin 13207 3) (.fin 2123 3) (.fin 100 2) (.fin 2000 2) none
          (s2c " N") 0) ∧
      (0 : Int) = 0) := by
  refine ⟨⟨by decide, by decide, by decide, by decide, ?_⟩, ?_, ?_, ?_⟩
  · have h := (((claim_C7 chargeLine 1 false).2 '5' '+' (by decide) (by decide)
      (by decide)).2 (by decide)).1 1 (s2c " N  ") none (s2c "ALA") (s2c "A") 1 none
      (.fin 11104 3) (.fin 13207 3) (.fin 2123 3) (.fin 100 2) (.fin 2000 2) none
      (s2c " N") 5 (by decide)
    exact h.2.2
  · exact (((claim_C7 badChargeLine 1 false).2 'X' '+' (by decide) (by decide)
      (by decide)).2 (by decide)).2.1 (by decide)
  · exact (((claim_C7 badSignLine 1 false).2 '5' '0' (by decide) (by decide)
      (by decide)).2 (by decide)).2.2 (by decide)
  · exact ⟨by decide, by decide, by decide,
      ((claim_C7 scenLine80 1 false).2 ' ' ' ' (by decide) (by decide) (by decide)).1
        (by decide) 1 (s2c " N  ") none (s2c "ALA") (s2c "A") 1 none
        (.fin 11104 3) (.fin 13207 3) (.fin 2123 3) (.fin 100 2) (.fin 2000 2) none
        (s2c " N") 0 (by decide)⟩

/-- Claim C4 (amended): `add_remarks` rejects an unregistered remark type with
a typed `InvalidValue` error leaving the remark sequence unchanged; but for a
registered type with text longer than 70 bytes it panics (it does not return a
typed error); for a registered type with text of at most 70 bytes it appends
the pair and succeeds. -/
theorem claim_C4 (pdb : PDB) (ty : Nat) (txt : Str) :
    (REMARK_TYPES.contains ty = false →
      (PDB.add_remarks pdb ty txt).2 = pdb ∧
      ∃ m, (PDB.add_remarks pdb ty txt).1 = .err (.pdb (.InvalidValue m))) ∧
    (REMARK_TYPES.contains ty = true → 70 < utf8Len txt →
      (PDB.add_remarks pdb ty txt).2 = pdb ∧
      (PDB.add_remarks pdb ty txt).1 =
        .panicked (s2c "given remark text is too long (>70)")) ∧
    (REMARK_TYPES.contains ty = true → utf8Len txt ≤ 70 →
      PDB.add_remarks pdb ty txt =
        (.ok (), { pdb with remarks := pdb.remarks ++ [(ty, txt)] })) := by
  refine ⟨?_, ?_, ?_⟩
  · intro h
    unfold PDB.add_remarks
    rw [if_pos (by rw [h]; simp)]
    exact ⟨rfl, _, rfl⟩
  · intro h hl
    unfold PDB.add_remarks
    rw [if_neg (by rw [h]; simp), if_pos hl]
    exact ⟨rfl, rfl⟩
  · intro h hl
    unfold PDB.add_remarks
    rw [if_neg (by rw [h]; simp), if_neg (by omega)]

theorem claim_C4_counterexample :
    REMARK_TYPES.contains 3 = true ∧ 70 < utf8Len text71 ∧
    (PDB.add_remarks PDB.new 3 text71).1 =
      .panicked (s2c "given remark text is too long (>70)") ∧
    (PDB.add_remarks PDB.new 3 text71).2 = PDB.new := by
  decide

theorem claim_C4_witness :
    (REMARK_TYPES.contains 7 = false ∧
      (PDB.add_remarks PDB.new 7 (s2c "X")).2 = PDB.new ∧
      ∃ m, (PDB.add_remarks PDB.new 7 (s2c "X")).1 = .err (.pdb (.InvalidValue m))) ∧
    (PDB.add_remarks PDB.new 3 (s2c "RESOLUTION.") =
      (.ok (), { PDB.new with remarks := PDB.new.remarks ++ [(3, s2c "RESOLUTION.")] })) :=
  ⟨⟨by decide, (claim_C4 PDB.new 7 (s2c "X")).1 (by decide)⟩,
   (claim_C4 PDB.new 3 (s2c "RESOLUTION.")).2.2 (by decide) (by decide)⟩

/-- Claim C5 (amended): `Atom::new` does not validate the chain id or the
residue name at all: its success depends exactly on the validity of the atom
name and element and the finiteness of the five numeric arguments, whatever the
chain-id and residue-name arguments are (they are only trimmed and
upper-cased). -/
theorem claim_C5 (het : Bool) (sn : Nat) (nm rn ci : Str) (rs : Nat)
    (x y z oc tf : F64) (el : Str) (ch : Int) :
    (Atom.new het sn nm rn ci rs x y z oc tf el ch).isSome =
      (valid_identifier nm && valid_identifier el && F64.isFinite x && F64.isFinite y &&
       F64.isFinite z && F64.isFinite oc && F64.isFinite tf) := by
  unfold Atom.new
  split
  · rename_i h
    simp [h]
  · rename_i h
    simp only [Bool.not_eq_true] at h
    simp [h]

theorem claim_C5_counterexample :
    valid_identifier [Char.ofNat 7] = false ∧ (s2c "AB").length = 2 ∧
    (Atom.new false 1 ['N'] [Char.ofNat 7] (s2c "AB") 1 (.fin 0 0) (.fin 0 0) (.fin 0 0)
      (.fin 100 2) (.fin 0 0) ['N'] 0).isSome = true := by
  decide

/-- Claim C8 (amended): every emitted line is padded with trailing spaces to at
least 70 bytes, and the scenario atom's written line is 79 characters long and
ends with the charge digit '0' (there IS a trailing charge digit). -/
theorem claim_C8 :
    (∀ l, 70 ≤ utf8Len (write_line l)) ∧
    (write_line (atomLine atomScen)).length = 79 ∧
    (write_line (atomLine atomScen)).getLast? = some '0' := by
  refine ⟨?_, by decide, by decide⟩
  intro l
  unfold write_line
  split
  · rename_i h
    rw [utf8Len_append, utf8Len_replicate_space]
    omega
  · omega

theorem claim_C8_counterexample :
    (write_line (atomLine atomScen)).getLast? = some '0' ∧ Char.isDigit '0' = true := by
  decide

theorem set_identifier_fail (p : PDB) (s : Str) (h : valid_identifier s = false) :
    (PDB.set_identifier p s).2 = p ∧ ∃ e, (PDB.set_identifier p s).1 = .error e := by
  unfold PDB.set_identifier prepare_identifier
  rw [if_neg (by simp [h])]
  exact ⟨rfl, _, rfl⟩

/-- Claim C9: the single-character check is true exactly when the code point is
strictly between 31 and 127; a string holding any character outside that range
fails `valid_identifier`, makes `Atom::new` fail when passed as name or
element, and makes `set_name`, `set_element` and `set_identifier` return a
typed error without mutating. -/
theorem claim_C9 :
    (∀ c, check_char c = true ↔ (31 < c.toNat ∧ c.toNat < 127)) ∧
    (∀ s c, c ∈ s → ¬ (31 < c.toNat ∧ c.toNat < 127) →
      valid_identifier s = false ∧
      (∀ het sn rn ci rs x y z oc tf el ch,
        Atom.new het sn s rn ci rs x y z oc tf el ch = none) ∧
      (∀ het sn nm rn ci rs x y z oc tf ch,
        Atom.new het sn nm rn ci rs x y z oc tf s ch = none) ∧
      (∀ a, (Atom.set_name a s).2 = a ∧ ∃ e, (Atom.set_name a s).1 = .error e) ∧
      (∀ a, (Atom.set_element a s).2 = a ∧ ∃ e, (Atom.set_element a s).1 = .error e) ∧
      (∀ p, (PDB.set_identifier p s).2 = p ∧
        ∃ e, (PDB.set_identifier p s).1 = .error e)) := by
  constructor
  · intro c
    simp only [check_char, decide_eq_true_eq]
    constructor
    · intro h
      exact ⟨h.2, h.1⟩
    · intro h
      exact ⟨h.2, h.1⟩
  · intro s c hc hbad
    have hv : valid_identifier s = false := by
      cases hval : valid_identifier s with
      | false => rfl
      | true =>
          have h2 := List.all_eq_true.mp hval c hc
          simp only [check_char, decide_eq_true_eq] at h2
          exact absurd ⟨h2.2, h2.1⟩ hbad
    refine ⟨hv, ?_, ?_, fun a => set_name_fail a s hv, fun a => set_element_fail a s hv,
      fun p => set_identifier_fail p s hv⟩
    · intro het sn rn ci rs x y z oc tf el ch
      exact atom_new_none _ _ _ _ _ _ _ _ _ _ _ _ _ (by simp [hv])
    · intro het sn nm rn ci rs x y z oc tf ch
      exact atom_new_none _ _ _ _ _ _ _ _ _ _ _ _ _ (by simp [hv])

theorem claim_C9_witness :
    (check_char 'A' = true) ∧
    valid_identifier [Char.ofNat 7] = false ∧
    Atom.new false 1 [Char.ofNat 7] (s2c "ALA") ['A'] 1 (.fin 0 0) (.fin 0 0) (.fin 0 0)
      (.fin 100 2) (.fin 0 0) ['N'] 0 = none ∧
    ((PDB.set_identifier PDB.new [Char.ofNat 7]).2 = PDB.new ∧
      ∃ e, (PDB.set_identifier PDB.new [Char.ofNat 7]).1 = .error e) :=
  ⟨(claim_C9.1 'A').mpr (by decide),
   (claim_C9.2 [Char.ofNat 7] (Char.ofNat 7) (by decide) (by decide)).1,
   (claim_C9.2 [Char.ofNat 7] (Char.ofNat 7) (by decide) (by decide)).2.1
      false 1 (s2c "ALA") ['A'] 1 (.fin 0 0) (.fin 0 0) (.fin 0 0) (.fin 100 2) (.fin 0 0)
      ['N'] 0,
   (claim_C9.2 [Char.ofNat 7] (Char.ofNat 7) (by decide) (by decide)).2.2.2.2.2 PDB.new⟩

theorem byteTakeOpt_ascii (l : Str) (n : Nat) (hascii : ∀ c ∈ l, c.toNat < 128)
    (hn : n ≤ l.length) : byteTakeOpt l n = some (l.take n) := by
  have h1 : utf8Len (l.take n) = n := by
    rw [utf8Len_ascii _ (fun c hc => hascii c (List.mem_of_mem_take hc))]
    simp [Nat.min_eq_left hn]
  have h2 := byteTakeOpt_exact (l.take n) (l.drop n)
  rw [List.take_append_drop] at h2
  rwa [h1] at h2

theorem parse_usize_no_panic (s : Str) (ln : Nat) : (parse_usize s ln).isPanic = false := by
  simp only [parse_usize]
  split <;> rfl

/-- Claim C10 (amended): line decoding is not total.  A line of more than six
bytes whose sixth byte is not a character boundary panics; a line of at most
two bytes decodes to `Empty`; an ASCII line of three to six bytes decodes to
`Empty` (the second-tier TER/END comparison can never match a 2-character
slice); and an ASCII REMARK line of more than six bytes panics exactly when it
is shorter than ten characters. -/
theorem claim_C10 :
    (∀ line ln, 6 < utf8Len line → byteTakeOpt line 6 = none →
      (parse_line line ln).isPanic = true) ∧
    (∀ line ln, utf8Len line ≤ 2 → parse_line line ln = .ok .Empty) ∧
    (∀ line ln, (∀ c ∈ line, c.toNat < 128) → 2 < utf8Len line → utf8Len line ≤ 6 →
      parse_line line ln = .ok .Empty) ∧
    (∀ line ln, (∀ c ∈ line, c.toNat < 128) → line.take 6 = s2c "REMARK" →
      6 < utf8Len line →
      ((parse_line line ln).isPanic = true ↔ line.length < 10)) := by
  refine ⟨?_, ?_, ?_, ?_⟩
  · intro line ln h6 hnone
    unfold parse_line
    rw [if_pos h6, hnone]
    rfl
  · intro line ln h2
    unfold parse_line
    rw [if_neg (by omega), if_neg (by omega)]
  · intro line ln ha h2 h6
    have hl : utf8Len line = line.length := utf8Len_ascii _ ha
    unfold parse_line
    rw [if_neg (by omega), if_pos h2, byteTakeOpt_ascii line 2 ha (by omega)]
    have ht : ¬ (line.take 2 = s2c "TER") := by
      intro he
      have hlt2 : (line.take 2).length = 2 := by
        rw [List.length_take]
        omega
      rw [he] at hlt2
      exact absurd hlt2 (by decide)
    have hd : ¬ (line.take 2 = s2c "END") := by
      intro he
      have hlt2 : (line.take 2).length = 2 := by
        rw [List.length_take]
        omega
      rw [he] at hlt2
      exact absurd hlt2 (by decide)
    simp [ht, hd]
  · intro line ln ha htake h6
    have hl : utf8Len line = line.length := utf8Len_ascii _ ha
    unfold parse_line
    rw [if_pos h6, byteTakeOpt_ascii line 6 ha (by omega), htake]
    norm_num [show s2c "REMARK" ≠ s2c "HEADER" from by decide]
    unfold parse_remarks
    by_cases h80 : 80 < utf8Len line
    · rw [if_pos h80]
      simp only [RRes.isPanic]
      constructor
      · intro hfalse
        exact absurd hfalse (by simp)
      · intro hlt
        omega
    · rw [if_neg h80]
      by_cases h10 : 10 ≤ line.length
      · have hs : vecSlice line 7 10 = .ok ((line.drop 7).take 3) := by
          unfold vecSlice
          rw [if_pos ⟨by omega, h10⟩]
        rw [hs, RRes.bind_ok]
        cases hu : parse_usize ((line.drop 7).take 3) ln with
        | ok n =>
            rw [RRes.bind_ok]
            simp only [RRes.isPanic]
            constructor
            · intro hfalse
              exact absurd hfalse (by simp)
            · intro hlt
              omega
        | err e =>
            show ((RRes.err e : RRes Nat) >>= _).isPanic = true ↔ line.length < 10
            simp only [Bind.bind, RRes.bind, RRes.isPanic]
            constructor
            · intro hfalse
              exact absurd hfalse (by simp)
            · intro hlt
              omega
        | panicked m =>
            have hnp := parse_usize_no_panic ((line.drop 7).take 3) ln
            rw [hu] at hnp
            exact absurd hnp (by simp [RRes.isPanic])
      · have hs : vecSlice line 7 10 = .panicked (s2c "slice index out of range") := by
          unfold vecSlice
          rw [if_neg (by omega)]
        rw [hs]
        show ((RRes.panicked (s2c "slice index out of range") : RRes Str) >>= _).isPanic =
          true ↔ line.length < 10
        simp only [Bind.bind, RRes.bind, RRes.isPanic]
        constructor
        · intro _
          omega
        · intro _
          trivial

theorem claim_C10_counterexample :
    remarkShort.length = 8 ∧ (parse_line remarkShort 1).isPanic = true ∧
    6 < utf8Len nonBoundaryLine ∧ (parse_line nonBoundaryLine 1).isPanic = true := by
  decide

theorem claim_C10_witness :
    (parse_line remarkShort 1).isPanic = true ∧
    parse_line (s2c "TE") 1 = .ok .Empty ∧
    parse_line (s2c "TER") 1 = .ok .Empty ∧
    (parse_line nonBoundaryLine 1).isPanic = true :=
  ⟨(claim_C10.2.2.2 remarkShort 1 (by decide) (by decide) (by decide)).mpr (by decide),
   claim_C10.2.1 (s2c "TE") 1 (by decide),
   claim_C10.2.2.1 (s2c "TER") 1 (by decide) (by decide) (by decide),
   claim_C10.1 nonBoundaryLine 1 (by decide) (by decide)⟩
